import Mathlib

/-!
Verification of the WordleCoop connection/session coordination layer.

This file gives a shallow embedding of the TypeScript sources:

* `src/coop.ts` — the `CoopClient` peer message protocol (registration,
  shape verification, queuing, inbound dispatch) and the `CoopSeedablePRNG`
  xorshift generator.  The file contains several concatenated revisions of
  the client; the embedding follows the final revision (the one defining
  `close()`/`onClose`, lines 308–603), which is the revision the claims cite.
* `src/app.ts` — the `SignalServer` relay (`handleJoinSession`,
  `parseMessage`, the per-message try/catch of `run`).
* `src/wordle.ts` — the `WordleGame`/`WordleBoard` state used by the co-op
  browser state.
* `src/unnamed/part_003` — the `BrowserCoopState` turn logic
  (`determineStartHandler`, `onPushWord`/`onPopCharacter`/`onPushCharacter`
  and the `phys*` helpers).

Modelling conventions, used throughout:

* JavaScript strings are `List Char` (`JStr`); JS numbers are `Int` (every
  number the modelled code manipulates is integral: seeds, indices, counters);
  `JSON`-representable values are the inductive `JsValue`.
* A JS `Map` is an insertion-ordered association list; `JsMap.set` replaces
  the value of an existing key in place (keeping its position), as JS does.
* Mutation is explicit state passing; a method that can throw returns the
  state as mutated up to the throw point together with a flag (or `Option`
  result), matching the fact that JS keeps partial mutations on exceptions.
* Writes to an `RTCDataChannel`/`WebSocket` are collected in an output list
  of frames, in order; `console.log` effects are not modelled.
* Canvas/DOM rendering (`src/browser/render.ts` state such as the
  `BrowserWordleBoard` this.board of the co-op state) is out of scope, as the
  spec declares; the embedded `BrowserCoopState` carries the game, PRNG and
  move-parity fields the claims are about.
-/

/-- A JavaScript string, as its list of characters. -/
abbrev JStr := List Char

namespace JsMap

/-- `Map.get(k)`: the value stored at `k`, if present. -/
def get? (m : List (JStr × α)) (k : JStr) : Option α :=
  (m.find? (fun p => p.1 == k)).map Prod.snd

/-- `Map.has(k)`. -/
def hasKey (m : List (JStr × α)) (k : JStr) : Bool :=
  (m.find? (fun p => p.1 == k)).isSome

/-- `Map.set(k, v)`: replaces in place if `k` is present (keeping its
    position in iteration order), otherwise appends. -/
def set (m : List (JStr × α)) (k : JStr) (v : α) : List (JStr × α) :=
  if hasKey m k then m.map (fun p => if p.1 == k then (p.1, v) else p)
  else m ++ [(k, v)]

theorem get?_eq_none_of_not_has {m : List (JStr × α)} {k : JStr}
    (h : hasKey m k = false) : get? m k = none := by
  unfold hasKey at h
  unfold get?
  cases hf : m.find? (fun p => p.1 == k) with
  | none => rfl
  | some p => rw [hf] at h; simp at h

theorem hasKey_of_get?_eq_some {m : List (JStr × α)} {k : JStr} {v : α}
    (h : get? m k = some v) : hasKey m k = true := by
  unfold get? at h
  unfold hasKey
  cases hf : m.find? (fun p => p.1 == k) with
  | none => rw [hf] at h; simp at h
  | some p => simp [hf]

theorem find?_upd_ne {k k0 : JStr} (v : α) (h : k ≠ k0) (m : List (JStr × α)) :
    (List.find? (fun p => p.1 == k0)
        (m.map (fun p => if p.1 == k then (p.1, v) else p))).map Prod.snd
      = (List.find? (fun p => p.1 == k0) m).map Prod.snd := by
  induction m with
  | nil => rfl
  | cons p t ih =>
      by_cases hp0 : (p.1 == k0) = true
      · have hpk : (p.1 == k) = false := by
          have h1 : p.1 = k0 := by simpa using hp0
          subst h1
          simp only [beq_eq_false_iff_ne]
          exact fun e => h e.symm
        simp [List.find?, hpk, hp0]
      · have hkey : ((if p.1 == k then (p.1, v) else p).1 == k0) = false := by
          split <;> simpa using hp0
        simp only [List.map_cons, List.find?, hkey, hp0]
        exact ih

theorem get?_set_ne {m : List (JStr × α)} {k k0 : JStr} (v : α) (h : k ≠ k0) :
    get? (set m k v) k0 = get? m k0 := by
  have hbeq : (k == k0) = false := by
    simp only [beq_eq_false_iff_ne]; exact h
  unfold set
  split
  · exact find?_upd_ne v h m
  · unfold get?
    rw [List.find?_append]
    have hnil : List.find? (fun p => p.1 == k0) [(k, v)] = none := by
      simp [List.find?, hbeq]
    rw [hnil]
    simp

end JsMap

/-! ### Decimal digit strings

`JSON.stringify` prints integral numbers in plain decimal; the relay and the
protocol never produce non-integral numbers.  `natChars`/`intChars` render,
`grabDigits`/`digitsVal` are the lexer side used by the `JSON.parse` model. -/

/-- The character of a decimal digit. -/
def digitChar (n : Nat) : Char := Char.ofNat (48 + n)

/-- Is `c` one of the characters 0–9? -/
def isDigitCh (c : Char) : Bool := 48 ≤ c.toNat && c.toNat ≤ 57

/-- Decimal digit characters of a natural number, most significant first. -/
def natChars (n : Nat) : List Char :=
  if _h : n < 10 then [digitChar n]
  else natChars (n / 10) ++ [digitChar (n % 10)]
termination_by n
decreasing_by exact Nat.div_lt_self (by omega) (by omega)

/-- Decimal characters of an integer: optional minus sign, then digits. -/
def intChars (i : Int) : List Char :=
  if i < 0 then '-' :: natChars i.natAbs else natChars i.natAbs

/-- Splits a longest prefix of decimal digits off the input. -/
def grabDigits : List Char → List Char × List Char
  | [] => ([], [])
  | c :: cs =>
      if isDigitCh c then
        let p := grabDigits cs
        (c :: p.1, p.2)
      else ([], c :: cs)

/-- The value of a string of decimal digits. -/
def digitsVal (ds : List Char) : Nat :=
  ds.foldl (fun a c => a * 10 + (c.toNat - 48)) 0

theorem digitChar_isDigit {n : Nat} (h : n < 10) : isDigitCh (digitChar n) = true := by
  interval_cases n <;> decide

theorem digitChar_toNat {n : Nat} (h : n < 10) : (digitChar n).toNat - 48 = n := by
  interval_cases n <;> decide

theorem natChars_all_digits (n : Nat) : ∀ c ∈ natChars n, isDigitCh c = true := by
  induction n using Nat.strong_induction_on with
  | _ n ih =>
      intro c hc
      rw [natChars] at hc
      by_cases h : n < 10
      · rw [dif_pos h] at hc
        simp only [List.mem_singleton] at hc
        subst hc
        exact digitChar_isDigit h
      · rw [dif_neg h] at hc
        rcases List.mem_append.mp hc with h1 | h2
        · exact ih (n / 10) (Nat.div_lt_self (by omega) (by omega)) c h1
        · simp only [List.mem_singleton] at h2
          subst h2
          exact digitChar_isDigit (Nat.mod_lt _ (by omega))

theorem natChars_ne_nil (n : Nat) : natChars n ≠ [] := by
  rw [natChars]
  by_cases h : n < 10
  · rw [dif_pos h]; simp
  · rw [dif_neg h]; simp

/-- `grabDigits` passes over a digit string, stopping where the remainder does. -/
theorem grabDigits_digits {ds : List Char} (hds : ∀ c ∈ ds, isDigitCh c = true)
    {rest : List Char} (hrest : grabDigits rest = ([], rest)) :
    grabDigits (ds ++ rest) = (ds, rest) := by
  induction ds with
  | nil => simpa using hrest
  | cons c t ih =>
      have hc := hds c (List.mem_cons_self _ _)
      have ht := ih (fun x hx => hds x (List.mem_cons_of_mem _ hx))
      simp [grabDigits, hc, ht]

theorem grabDigits_stop {rest : List Char}
    (h : rest = [] ∨ ∃ c t, rest = c :: t ∧ isDigitCh c = false) :
    grabDigits rest = ([], rest) := by
  rcases h with h | ⟨c, t, rfl, hc⟩
  · subst h; rfl
  · simp [grabDigits, hc]

theorem digitsVal_append (a b : List Char) :
    digitsVal (a ++ b) = (b.foldl (fun x c => x * 10 + (c.toNat - 48)) (digitsVal a)) := by
  unfold digitsVal
  rw [List.foldl_append]

theorem digitsVal_natChars (n : Nat) : digitsVal (natChars n) = n := by
  induction n using Nat.strong_induction_on with
  | _ n ih =>
      rw [natChars]
      by_cases h : n < 10
      · rw [dif_pos h]
        simp [digitsVal, digitChar_toNat h]
      · rw [dif_neg h]
        have ihv := ih (n / 10) (Nat.div_lt_self (by omega) (by omega))
        unfold digitsVal at ihv ⊢
        rw [List.foldl_append, ihv]
        simp [digitChar_toNat (Nat.mod_lt n (by omega))]
        omega

/-- The first character of a rendered natural number is a digit. -/
theorem natChars_head (n : Nat) :
    ∃ c t, natChars n = c :: t ∧ isDigitCh c = true := by
  cases hn : natChars n with
  | nil => exact absurd hn (natChars_ne_nil n)
  | cons c t =>
      refine ⟨c, t, rfl, natChars_all_digits n c ?_⟩
      rw [hn]; exact List.mem_cons_self _ _

/-! ### JSON-representable values

The universe of values the modelled program passes through `JSON.stringify` /
`JSON.parse` and through shape verification.  JS numbers are modelled as
`Int`: every number the program serializes is integral (seeds 0–0xFFFF,
board indices, counters).  `typeof` of `null`, arrays and plain objects is
`"object"`; functions/symbols/`undefined` cannot be registered
(`addTwoWayProtocol` rejects them) and are outside the universe. -/

inductive JsValue : Type where
  | jnum (i : Int)
  | jstr (s : JStr)
  | jbool (b : Bool)
  | jnull
  | jarr (elems : List JsValue)
  | jobj (fields : List (JStr × JsValue))

instance : Inhabited JsValue := ⟨JsValue.jnull⟩

/-- The left brace character (written by code point to keep it out of
    string literals). -/
def openBr : Char := Char.ofNat 123

/-- The right brace character. -/
def closeBr : Char := Char.ofNat 125

/-- The double-quote character. -/
def quoteCh : Char := Char.ofNat 34

/-- The backslash character. -/
def backslashCh : Char := Char.ofNat 92

def typeNumberS : JStr := ['n', 'u', 'm', 'b', 'e', 'r']
def typeStringS : JStr := ['s', 't', 'r', 'i', 'n', 'g']
def typeBooleanS : JStr := ['b', 'o', 'o', 'l', 'e', 'a', 'n']
def typeObjectS : JStr := ['o', 'b', 'j', 'e', 'c', 't']

/-- The JS `typeof` operator on the modelled value universe. -/
def jsTypeof : JsValue → JStr
  | .jnum _ => typeNumberS
  | .jstr _ => typeStringS
  | .jbool _ => typeBooleanS
  | .jnull => typeObjectS
  | .jarr _ => typeObjectS
  | .jobj _ => typeObjectS

/-- `Object.entries`: own enumerable string-keyed entries.  For an array these
    are its elements keyed by decimal index (`length` is not enumerable); for
    a non-object primitive the result is empty.  `Object.entries(null)`
    throws and is handled at each call site, never through this function. -/
def jsEntries : JsValue → List (JStr × JsValue)
  | .jobj fs => fs
  | .jarr es => es.enum.map (fun p => (natChars p.1, p.2))
  | _ => []

/-- The hexadecimal digit character (lowercase, as `JSON.stringify` emits). -/
def hexChar (n : Nat) : Char :=
  if n < 10 then Char.ofNat (48 + n) else Char.ofNat (87 + n)

/-- One character of a string, escaped exactly as `JSON.stringify` does:
    quote, backslash, the five short escapes, `\u00XX` for other control
    characters, and the character itself otherwise. -/
def escChar (c : Char) : List Char :=
  if c = quoteCh then [backslashCh, quoteCh]
  else if c = backslashCh then [backslashCh, backslashCh]
  else if c.toNat = 8 then [backslashCh, 'b']
  else if c.toNat = 9 then [backslashCh, 't']
  else if c.toNat = 10 then [backslashCh, 'n']
  else if c.toNat = 12 then [backslashCh, 'f']
  else if c.toNat = 13 then [backslashCh, 'r']
  else if c.toNat < 32 then
    [backslashCh, 'u', '0', '0', hexChar (c.toNat / 16), hexChar (c.toNat % 16)]
  else [c]

/-- A whole string body, escaped. -/
def escStr : JStr → JStr
  | [] => []
  | c :: cs => escChar c ++ escStr cs

mutual

/-- The `JSON.stringify` model: no whitespace, keys in insertion order. -/
def stringify : JsValue → JStr
  | .jnum i => intChars i
  | .jstr s => quoteCh :: (escStr s ++ [quoteCh])
  | .jbool true => ['t', 'r', 'u', 'e']
  | .jbool false => ['f', 'a', 'l', 's', 'e']
  | .jnull => ['n', 'u', 'l', 'l']
  | .jarr es => '[' :: (strElems es ++ [']'])
  | .jobj fs => openBr :: (strFields fs ++ [closeBr])

/-- Array elements, comma-separated. -/
def strElems : List JsValue → JStr
  | [] => []
  | e :: es => stringify e ++ strElemsTail es

def strElemsTail : List JsValue → JStr
  | [] => []
  | e :: es => ',' :: (stringify e ++ strElemsTail es)

/-- Object members, comma-separated `"key":value` pairs. -/
def strFields : List (JStr × JsValue) → JStr
  | [] => []
  | (k, v) :: fs =>
      quoteCh :: (escStr k ++ quoteCh :: ':' :: (stringify v ++ strFieldsTail fs))

def strFieldsTail : List (JStr × JsValue) → JStr
  | [] => []
  | (k, v) :: fs =>
      ',' :: (quoteCh :: (escStr k ++ quoteCh :: ':' :: (stringify v ++ strFieldsTail fs)))

end

/-! ### The `JSON.parse` model

A fueled recursive-descent parser over the JSON grammar restricted to the
`JsValue` universe: a number is an optional minus sign followed by a digit
run without leading zeros (a fraction or exponent is rejected by the
delimiter check of the surrounding production, since no non-integral number
is representable in the model).  `none` plays the role of the `SyntaxError`
thrown by `JSON.parse`. -/

/-- JSON whitespace. -/
def isWsCh (c : Char) : Bool :=
  c.toNat = 32 || c.toNat = 9 || c.toNat = 10 || c.toNat = 13

def dropWs : JStr → JStr
  | [] => []
  | c :: cs => if isWsCh c then dropWs cs else c :: cs

def hexVal? (c : Char) : Option Nat :=
  if 48 ≤ c.toNat ∧ c.toNat ≤ 57 then some (c.toNat - 48)
  else if 97 ≤ c.toNat ∧ c.toNat ≤ 102 then some (c.toNat - 87)
  else if 65 ≤ c.toNat ∧ c.toNat ≤ 70 then some (c.toNat - 55)
  else none

/-- The single-character escapes accepted after a backslash. -/
def unescCh (c : Char) : Option Char :=
  if c = quoteCh then some quoteCh
  else if c = backslashCh then some backslashCh
  else if c = '/' then some '/'
  else if c = 'b' then some (Char.ofNat 8)
  else if c = 'f' then some (Char.ofNat 12)
  else if c = 'n' then some (Char.ofNat 10)
  else if c = 'r' then some (Char.ofNat 13)
  else if c = 't' then some (Char.ofNat 9)
  else none

/-- Code points expressible as a Lean `Char` (a `\uXXXX` escape naming a lone
    surrogate builds a JS string with no scalar-value counterpart; the model
    rejects it). -/
def okScalar (n : Nat) : Bool := n < 55296 || (57343 < n && n < 1114112)

/-- Scans a string body after the opening quote, up to and including the
    closing quote; raw control characters are a syntax error, as in JSON. -/
def scanStr : JStr → Option (JStr × JStr)
  | [] => none
  | c :: rest =>
      if c = quoteCh then some ([], rest)
      else if c = backslashCh then
        match rest with
        | [] => none
        | e :: rest2 =>
            if e = 'u' then
              match rest2 with
              | a :: b :: c3 :: d :: rest3 =>
                  match hexVal? a, hexVal? b, hexVal? c3, hexVal? d with
                  | some va, some vb, some vc, some vd =>
                      let n := ((va * 16 + vb) * 16 + vc) * 16 + vd
                      if okScalar n then
                        (scanStr rest3).map (fun p => (Char.ofNat n :: p.1, p.2))
                      else none
                  | _, _, _, _ => none
              | _ => none
            else
              match unescCh e with
              | some ch => (scanStr rest2).map (fun p => (ch :: p.1, p.2))
              | none => none
      else if c.toNat < 32 then none
      else (scanStr rest).map (fun p => (c :: p.1, p.2))

/-- A digit run with its value, rejecting an empty run and leading zeros. -/
def scanNumCore (s : JStr) : Option (Nat × JStr) :=
  match grabDigits s with
  | ([], _) => none
  | (d :: ds, r) => if d = '0' ∧ ds ≠ [] then none else some (digitsVal (d :: ds), r)

/-- A JSON integer: optional minus sign, then a digit run. -/
def scanNum : JStr → Option (Int × JStr)
  | [] => none
  | c :: r =>
      if c = '-' then
        match scanNumCore r with
        | some (n, r2) => some (-(n : Int), r2)
        | none => none
      else
        match scanNumCore (c :: r) with
        | some (n, r2) => some ((n : Int), r2)
        | none => none

mutual

/-- One JSON value (leading whitespace allowed), returning the remainder. -/
def parseVal : Nat → JStr → Option (JsValue × JStr)
  | 0, _ => none
  | fuel + 1, s =>
      match dropWs s with
      | [] => none
      | c :: r =>
          if c = quoteCh then
            (scanStr r).map (fun p => (JsValue.jstr p.1, p.2))
          else if c = '[' then
            match dropWs r with
            | [] => none
            | c2 :: r2 =>
                if c2 = ']' then some (JsValue.jarr [], r2)
                else
                  match parseItems fuel (c2 :: r2) with
                  | some (es, r3) => some (JsValue.jarr es, r3)
                  | none => none
          else if c = openBr then
            match dropWs r with
            | [] => none
            | c2 :: r2 =>
                if c2 = closeBr then some (JsValue.jobj [], r2)
                else
                  match parseFields fuel (c2 :: r2) with
                  | some (fs, r3) => some (JsValue.jobj fs, r3)
                  | none => none
          else if c = 'n' then
            match r with
            | 'u' :: 'l' :: 'l' :: r2 => some (JsValue.jnull, r2)
            | _ => none
          else if c = 't' then
            match r with
            | 'r' :: 'u' :: 'e' :: r2 => some (JsValue.jbool true, r2)
            | _ => none
          else if c = 'f' then
            match r with
            | 'a' :: 'l' :: 's' :: 'e' :: r2 => some (JsValue.jbool false, r2)
            | _ => none
          else if c = '-' || isDigitCh c then
            (scanNum (c :: r)).map (fun p => (JsValue.jnum p.1, p.2))
          else none

/-- One or more comma-separated array elements, consuming the closing `]`. -/
def parseItems : Nat → JStr → Option (List JsValue × JStr)
  | 0, _ => none
  | fuel + 1, s =>
      match parseVal fuel s with
      | none => none
      | some (v, r) =>
          match dropWs r with
          | [] => none
          | c :: r2 =>
              if c = ',' then
                match parseItems fuel r2 with
                | some (vs, r3) => some (v :: vs, r3)
                | none => none
              else if c = ']' then some ([v], r2)
              else none

/-- One or more comma-separated object members, consuming the closing brace. -/
def parseFields : Nat → JStr → Option (List (JStr × JsValue) × JStr)
  | 0, _ => none
  | fuel + 1, s =>
      match dropWs s with
      | [] => none
      | c :: r =>
          if c = quoteCh then
            match scanStr r with
            | none => none
            | some (k, r1) =>
                match dropWs r1 with
                | [] => none
                | c2 :: r2 =>
                    if c2 = ':' then
                      match parseVal fuel r2 with
                      | none => none
                      | some (v, r3) =>
                          match dropWs r3 with
                          | [] => none
                          | c4 :: r4 =>
                              if c4 = ',' then
                                match parseFields fuel r4 with
                                | some (fs, r5) => some ((k, v) :: fs, r5)
                                | none => none
                              else if c4 = closeBr then some ([(k, v)], r4)
                              else none
                    else none
          else none

end

/-- The `JSON.parse` model on a whole document: one value, then only
    whitespace; anything else is a syntax error (`none`). -/
def jsonParse (s : JStr) : Option JsValue :=
  match parseVal (s.length + 1) s with
  | some (v, r) => if dropWs r = [] then some v else none
  | none => none

/-! ### Round trip: `jsonParse (stringify v) = some v`

The lemmas below invert each production of the serializer, then a mutual
induction over the value puts them together. -/

/-- A remainder that cannot extend a digit run: empty or headed by a
    non-digit.  Every delimiter the serializer emits after a number
    (`,`, `]`, the closing brace, end of input) qualifies. -/
def digitStop : JStr → Bool
  | [] => true
  | c :: _ => !isDigitCh c

theorem natChars_head_ne_zero {n : Nat} (h : 10 ≤ n) :
    ∀ c t, natChars n = c :: t → c ≠ '0' := by
  induction n using Nat.strong_induction_on with
  | _ n ih =>
      intro c t hct hc0
      subst hc0
      rw [natChars, dif_neg (by omega)] at hct
      obtain ⟨c1, t1, h1, hd1⟩ := natChars_head (n / 10)
      rw [h1, List.cons_append] at hct
      injection hct with hh _
      by_cases hn10 : 10 ≤ n / 10
      · exact ih (n / 10) (Nat.div_lt_self (by omega) (by omega)) hn10 c1 t1 h1 hh
      · rw [natChars, dif_pos (by omega)] at h1
        injection h1 with h1h _
        have hz : n / 10 = 0 := by
          have hd := digitChar_toNat (show n / 10 < 10 by omega)
          rw [h1h, hh] at hd
          simpa using hd.symm
        omega

theorem scanNumCore_natChars (n : Nat) {rest : JStr} (h : digitStop rest = true) :
    scanNumCore (natChars n ++ rest) = some (n, rest) := by
  have hstop : grabDigits rest = ([], rest) := grabDigits_stop (by
    cases rest with
    | nil => exact Or.inl rfl
    | cons c t =>
        refine Or.inr ⟨c, t, rfl, ?_⟩
        simpa [digitStop] using h)
  have hgd := grabDigits_digits (natChars_all_digits n) hstop
  obtain ⟨c, t, hct, hdg⟩ := natChars_head n
  have hdv : digitsVal (c :: t) = n := by rw [← hct]; exact digitsVal_natChars n
  have hguard : ¬(c = '0' ∧ t ≠ []) := by
    by_cases hn : n < 10
    · rw [natChars, dif_pos hn] at hct
      have ht : t = [] := (List.cons.injEq _ _ _ _ ▸ hct).2.symm
      rintro ⟨_, hne⟩
      exact hne ht
    · rintro ⟨hc0, _⟩
      exact natChars_head_ne_zero (by omega) c t hct hc0
  rw [hct, List.cons_append] at hgd
  unfold scanNumCore
  rw [hct, List.cons_append, hgd]
  simp only [hguard, if_false, hdv]

theorem scanNum_intChars (i : Int) {rest : JStr} (h : digitStop rest = true) :
    scanNum (intChars i ++ rest) = some (i, rest) := by
  by_cases hi : i < 0
  · rw [intChars, if_pos hi, List.cons_append, scanNum]
    rw [if_pos rfl, scanNumCore_natChars i.natAbs h]
    show some (-((i.natAbs : Nat) : Int), rest) = some (i, rest)
    rw [show -((i.natAbs : Nat) : Int) = i by omega]
  · rw [intChars, if_neg hi]
    obtain ⟨c, t, hct, hdg⟩ := natChars_head i.natAbs
    rw [hct, List.cons_append, scanNum]
    have hcm : ¬(c = '-') := by
      intro e
      rw [e] at hdg
      exact absurd hdg (by decide)
    rw [if_neg hcm, ← List.cons_append, ← hct, scanNumCore_natChars i.natAbs h]
    show some (((i.natAbs : Nat) : Int), rest) = some (i, rest)
    rw [show ((i.natAbs : Nat) : Int) = i by omega]

theorem hexVal_hexChar {n : Nat} (h : n < 16) : hexVal? (hexChar n) = some n := by
  interval_cases n <;> decide

/-- Scanning one escaped character undoes the escape. -/
theorem scanStr_escChar (c : Char) (rest : JStr) :
    scanStr (escChar c ++ rest) = (scanStr rest).map (fun p => (c :: p.1, p.2)) := by
  unfold escChar
  split_ifs with h1 h2 h3 h4 h5 h6 h7 h8
  · subst h1
    rw [scanStr.eq_def]
    simp +decide [unescCh]
  · subst h2
    rw [scanStr.eq_def]
    simp +decide [unescCh]
  · rw [show c = Char.ofNat 8 by rw [← h3, Char.ofNat_toNat]]
    rw [scanStr.eq_def]
    simp +decide [unescCh]
  · rw [show c = Char.ofNat 9 by rw [← h4, Char.ofNat_toNat]]
    rw [scanStr.eq_def]
    simp +decide [unescCh]
  · rw [show c = Char.ofNat 10 by rw [← h5, Char.ofNat_toNat]]
    rw [scanStr.eq_def]
    simp +decide [unescCh]
  · rw [show c = Char.ofNat 12 by rw [← h6, Char.ofNat_toNat]]
    rw [scanStr.eq_def]
    simp +decide [unescCh]
  · rw [show c = Char.ofNat 13 by rw [← h7, Char.ofNat_toNat]]
    rw [scanStr.eq_def]
    simp +decide [unescCh]
  · have harith : ((0 * 16 + 0) * 16 + c.toNat / 16) * 16 + c.toNat % 16 = c.toNat := by
      omega
    have hok : okScalar c.toNat = true := by
      unfold okScalar
      simp only [Bool.or_eq_true, decide_eq_true_eq]
      omega
    rw [scanStr.eq_def]
    simp +decide [show hexVal? '0' = some 0 from rfl,
      hexVal_hexChar (show c.toNat / 16 < 16 by omega),
      hexVal_hexChar (show c.toNat % 16 < 16 by omega), harith, hok, Char.ofNat_toNat]
    simp [show c.toNat / 16 * 16 + c.toNat % 16 = c.toNat by omega, hok, Char.ofNat_toNat]
  · rw [scanStr.eq_def]
    simp only [List.cons_append, List.nil_append, if_neg h1, if_neg h2, if_neg h8]

/-- Scanning an escaped body stops exactly at the closing quote. -/
theorem scanStr_escStr (s : JStr) (rest : JStr) :
    scanStr (escStr s ++ quoteCh :: rest) = some (s, rest) := by
  induction s with
  | nil =>
      show scanStr (quoteCh :: rest) = _
      rw [scanStr.eq_def]
      simp
  | cons c cs ih =>
      rw [escStr, List.append_assoc, scanStr_escChar, ih]
      rfl

theorem digit_ch_facts {c : Char} (h : isDigitCh c = true) :
    isWsCh c = false ∧ c ≠ ']' ∧ c ≠ closeBr := by
  unfold isDigitCh at h
  simp only [Bool.and_eq_true, decide_eq_true_eq] at h
  refine ⟨?_, ?_, ?_⟩
  · unfold isWsCh
    simp only [Bool.or_eq_false_iff, decide_eq_false_iff_not]
    omega
  · intro e; subst e; revert h; decide
  · intro e; subst e; revert h; decide

/-- Serialized output starts with a non-whitespace character that closes
    neither an array nor an object. -/
theorem stringify_head (v : JsValue) :
    ∃ c t, stringify v = c :: t ∧ isWsCh c = false ∧ c ≠ ']' ∧ c ≠ closeBr := by
  cases v with
  | jnum i =>
      by_cases hi : i < 0
      · exact ⟨'-', natChars i.natAbs,
          by rw [stringify, intChars, if_pos hi], by decide, by decide, by decide⟩
      · obtain ⟨c, t, hct, hdg⟩ := natChars_head i.natAbs
        obtain ⟨hw, hb, hc⟩ := digit_ch_facts hdg
        exact ⟨c, t, by rw [stringify, intChars, if_neg hi, hct], hw, hb, hc⟩
  | jstr s => refine ⟨quoteCh, _, rfl, ?_, ?_, ?_⟩ <;> decide
  | jbool b =>
      cases b with
      | true => refine ⟨'t', _, rfl, ?_, ?_, ?_⟩ <;> decide
      | false => refine ⟨'f', _, rfl, ?_, ?_, ?_⟩ <;> decide
  | jnull => refine ⟨'n', _, rfl, ?_, ?_, ?_⟩ <;> decide
  | jarr es => refine ⟨'[', _, rfl, ?_, ?_, ?_⟩ <;> decide
  | jobj fs => refine ⟨openBr, _, rfl, ?_, ?_, ?_⟩ <;> decide

theorem dropWs_cons_notws {c : Char} (h : isWsCh c = false) (r : JStr) :
    dropWs (c :: r) = c :: r := by
  rw [dropWs, if_neg (by simp [h])]

theorem dropWs_stringify (v : JsValue) (x : JStr) :
    dropWs (stringify v ++ x) = stringify v ++ x := by
  obtain ⟨c, t, hct, hws, _, _⟩ := stringify_head v
  rw [hct, List.cons_append, dropWs_cons_notws hws]

/-- Tail renderings are the comma-prefixed full renderings. -/
theorem strElemsTail_cons (e : JsValue) (es : List JsValue) :
    strElemsTail (e :: es) = ',' :: strElems (e :: es) := by
  rw [strElemsTail, strElems]

theorem strFieldsTail_cons (k : JStr) (v : JsValue) (fs : List (JStr × JsValue)) :
    strFieldsTail ((k, v) :: fs) = ',' :: strFields ((k, v) :: fs) := by
  rw [strFieldsTail, strFields]

mutual

/-- Fuel needed by `parseVal` to reparse a rendered value. -/
def jsSize : JsValue → Nat
  | .jarr es => 1 + itemsSize es
  | .jobj fs => 1 + fieldsSize fs
  | _ => 1

def itemsSize : List JsValue → Nat
  | [] => 0
  | e :: es => 1 + jsSize e + itemsSize es

def fieldsSize : List (JStr × JsValue) → Nat
  | [] => 0
  | (_, v) :: fs => 1 + jsSize v + fieldsSize fs

end

mutual

theorem jsSize_le : ∀ v : JsValue, jsSize v ≤ (stringify v).length
  | .jnum i => by
      have h1 : natChars i.natAbs ≠ [] := natChars_ne_nil _
      have h2 : 1 ≤ (natChars i.natAbs).length := by
        cases hn : natChars i.natAbs with
        | nil => exact absurd hn h1
        | cons a b => simp
      rw [stringify, intChars]
      split <;> simp [jsSize] <;> omega
  | .jstr s => by simp [stringify, jsSize]
  | .jbool b => by cases b <;> simp [stringify, jsSize]
  | .jnull => by simp [stringify, jsSize]
  | .jarr [] => by simp [stringify, jsSize, itemsSize, strElems]
  | .jarr (e :: es) => by
      have h := itemsSize_le e es
      simp only [stringify, jsSize, strElems, List.length_cons, List.length_append]
      simp only [strElems] at h
      omega
  | .jobj [] => by simp [stringify, jsSize, fieldsSize, strFields]
  | .jobj ((k, v) :: fs) => by
      have h := fieldsSize_le k v fs
      simp only [stringify, jsSize, List.length_cons, List.length_append]
      omega
termination_by v => sizeOf v

theorem itemsSize_le : ∀ (e : JsValue) (es : List JsValue),
    itemsSize (e :: es) ≤ (stringify e).length + (strElemsTail es).length + 1
  | e, [] => by
      have h := jsSize_le e
      simp [itemsSize, strElemsTail]
      omega
  | e, f :: fs => by
      have h1 := jsSize_le e
      have h2 := itemsSize_le f fs
      rw [strElemsTail_cons]
      simp only [itemsSize, strElems, List.length_cons, List.length_append] at h2 ⊢
      omega
termination_by e es => sizeOf e + sizeOf es + 1

theorem fieldsSize_le : ∀ (k : JStr) (v : JsValue) (fs : List (JStr × JsValue)),
    fieldsSize ((k, v) :: fs) ≤ (strFields ((k, v) :: fs)).length + 1
  | k, v, [] => by
      have h := jsSize_le v
      simp [fieldsSize, strFields, strFieldsTail]
      omega
  | k, v, (k2, v2) :: gs => by
      have h1 := jsSize_le v
      have h2 := fieldsSize_le k2 v2 gs
      rw [strFields, strFieldsTail_cons]
      simp only [fieldsSize, List.length_cons, List.length_append] at h2 ⊢
      omega
termination_by k v fs => sizeOf v + sizeOf fs + 1

end

theorem jsSize_pos (v : JsValue) : 1 ≤ jsSize v := by
  cases v <;> simp [jsSize]

theorem digitStop_head (c : Char) (x : JStr) (h : isDigitCh c = false) :
    digitStop (c :: x) = true := by
  simp [digitStop, h]

theorem digit_start_facts {c : Char} (h : isDigitCh c = true) :
    c ≠ quoteCh ∧ c ≠ '[' ∧ c ≠ openBr ∧ c ≠ 'n' ∧ c ≠ 't' ∧ c ≠ 'f' := by
  refine ⟨?_, ?_, ?_, ?_, ?_, ?_⟩ <;> (intro e; subst e; revert h; decide)

mutual

/-- Reparsing a rendered value returns exactly that value: the heart of the
    frame round trip. -/
theorem rtVal : ∀ (v : JsValue) (fuel : Nat) (rest : JStr),
    jsSize v ≤ fuel → digitStop rest = true →
    parseVal fuel (stringify v ++ rest) = some (v, rest)
  | .jnull, fuel, rest, hsz, _ => by
      cases fuel with
      | zero => simp [jsSize] at hsz
      | succ f =>
          rw [show stringify JsValue.jnull ++ rest = 'n' :: 'u' :: 'l' :: 'l' :: rest from rfl]
          rw [parseVal, dropWs_cons_notws (by decide)]
          simp +decide
  | .jbool b, fuel, rest, hsz, _ => by
      cases fuel with
      | zero => simp [jsSize] at hsz
      | succ f =>
          cases b with
          | true =>
              rw [show stringify (JsValue.jbool true) ++ rest
                    = 't' :: 'r' :: 'u' :: 'e' :: rest from rfl]
              rw [parseVal, dropWs_cons_notws (by decide)]
              simp +decide
          | false =>
              rw [show stringify (JsValue.jbool false) ++ rest
                    = 'f' :: 'a' :: 'l' :: 's' :: 'e' :: rest from rfl]
              rw [parseVal, dropWs_cons_notws (by decide)]
              simp +decide
  | .jstr s, fuel, rest, hsz, _ => by
      cases fuel with
      | zero => simp [jsSize] at hsz
      | succ f =>
          have harg : stringify (JsValue.jstr s) ++ rest
              = quoteCh :: (escStr s ++ quoteCh :: rest) := by
            rw [stringify]
            simp
          rw [harg, parseVal, dropWs_cons_notws (by decide)]
          simp +decide [scanStr_escStr]
  | .jnum i, fuel, rest, hsz, hstop => by
      cases fuel with
      | zero => simp [jsSize] at hsz
      | succ f =>
          by_cases hi : i < 0
          · have harg : stringify (JsValue.jnum i) ++ rest
                = '-' :: (natChars i.natAbs ++ rest) := by
              rw [stringify, intChars, if_pos hi, List.cons_append]
            have hs := scanNum_intChars i hstop
            rw [intChars, if_pos hi, List.cons_append] at hs
            rw [harg, parseVal, dropWs_cons_notws (by decide)]
            simp +decide [hs]
          · obtain ⟨c, t, hct, hdg⟩ := natChars_head i.natAbs
            obtain ⟨hq, hbk, hob, hn, ht', hf'⟩ := digit_start_facts hdg
            obtain ⟨hw, _, _⟩ := digit_ch_facts hdg
            have harg : stringify (JsValue.jnum i) ++ rest = c :: (t ++ rest) := by
              rw [stringify, intChars, if_neg hi, hct, List.cons_append]
            have hs := scanNum_intChars i hstop
            rw [intChars, if_neg hi, hct, List.cons_append] at hs
            rw [harg, parseVal, dropWs_cons_notws hw]
            simp only [if_neg hq, if_neg hbk, if_neg hob, if_neg hn, if_neg ht', if_neg hf',
              if_pos (show (c = '-' || isDigitCh c) = true by simp [hdg])]
            rw [hs]
            rfl
  | .jarr [], fuel, rest, hsz, _ => by
      cases fuel with
      | zero => simp [jsSize] at hsz
      | succ f =>
          have harg : stringify (JsValue.jarr []) ++ rest = '[' :: ']' :: rest := by
            rw [stringify, strElems]
            rfl
          rw [harg, parseVal, dropWs_cons_notws (by decide)]
          simp +decide [dropWs]
  | .jarr (e :: es), fuel, rest, hsz, _ => by
      cases fuel with
      | zero => simp [jsSize] at hsz
      | succ f =>
          have hsz2 : itemsSize (e :: es) ≤ f := by
            rw [jsSize] at hsz
            omega
          obtain ⟨c, t, hct, hws, hbr, _⟩ := stringify_head e
          have hdec : strElems (e :: es) ++ ']' :: rest
              = c :: (t ++ (strElemsTail es ++ ']' :: rest)) := by
            rw [strElems, hct]
            simp [List.append_assoc]
          have harg : stringify (JsValue.jarr (e :: es)) ++ rest
              = '[' :: (strElems (e :: es) ++ ']' :: rest) := by
            rw [stringify]
            simp [List.append_assoc]
          have hitems := rtItems e es f rest hsz2
          rw [hdec] at hitems
          have hdw : dropWs (c :: (t ++ (strElemsTail es ++ ']' :: rest)))
              = c :: (t ++ (strElemsTail es ++ ']' :: rest)) := dropWs_cons_notws hws _
          rw [harg, parseVal, dropWs_cons_notws (by decide), hdec]
          simp +decide only [hdw, hitems, if_neg hbr]
          simp
  | .jobj [], fuel, rest, hsz, _ => by
      cases fuel with
      | zero => simp [jsSize] at hsz
      | succ f =>
          have harg : stringify (JsValue.jobj []) ++ rest = openBr :: closeBr :: rest := by
            rw [stringify, strFields]
            rfl
          rw [harg, parseVal, dropWs_cons_notws (by decide)]
          simp +decide [dropWs]
  | .jobj ((k, v) :: fs), fuel, rest, hsz, _ => by
      cases fuel with
      | zero => simp [jsSize] at hsz
      | succ f =>
          have hsz2 : fieldsSize ((k, v) :: fs) ≤ f := by
            rw [jsSize] at hsz
            omega
          have hdec : strFields ((k, v) :: fs) ++ closeBr :: rest
              = quoteCh :: ((escStr k ++ quoteCh :: ':' :: (stringify v ++ strFieldsTail fs))
                  ++ closeBr :: rest) := by
            rw [strFields]
            simp [List.append_assoc]
          have harg : stringify (JsValue.jobj ((k, v) :: fs)) ++ rest
              = openBr :: (strFields ((k, v) :: fs) ++ closeBr :: rest) := by
            rw [stringify]
            simp [List.append_assoc]
          have hfields := rtFields k v fs f rest hsz2
          rw [hdec] at hfields
          have hdw : dropWs (quoteCh :: ((escStr k ++ quoteCh :: ':' :: (stringify v
                  ++ strFieldsTail fs)) ++ closeBr :: rest))
              = quoteCh :: ((escStr k ++ quoteCh :: ':' :: (stringify v ++ strFieldsTail fs))
                  ++ closeBr :: rest) := dropWs_cons_notws (by decide) _
          rw [harg, parseVal, dropWs_cons_notws (by decide), hdec]
          simp +decide only [hdw, hfields]
          simp
  termination_by v _ _ _ _ => sizeOf v
  decreasing_by all_goals (subst_vars; simp; omega)

theorem rtItems : ∀ (e : JsValue) (es : List JsValue) (fuel : Nat) (rest : JStr),
    itemsSize (e :: es) ≤ fuel →
    parseItems fuel (strElems (e :: es) ++ ']' :: rest) = some (e :: es, rest)
  | e, es, 0, rest, hsz => by
      rw [itemsSize] at hsz
      omega
  | e, [], f + 1, rest, hsz => by
      rw [itemsSize] at hsz
      have hv := rtVal e f (strElemsTail [] ++ ']' :: rest) (by omega)
        (digitStop_head ']' rest (by decide))
      have harg : strElems (e :: []) ++ ']' :: rest
          = stringify e ++ (strElemsTail [] ++ ']' :: rest) := by
        rw [strElems]
        simp [List.append_assoc]
      rw [harg, parseItems, hv]
      have hdw : dropWs (strElemsTail ([] : List JsValue) ++ ']' :: rest)
          = ']' :: rest := by
        rw [strElemsTail]
        exact dropWs_cons_notws (by decide) _
      simp +decide only [hdw]
      simp
  | e, f2 :: fs, f + 1, rest, hsz => by
      rw [itemsSize] at hsz
      have hstop2 : digitStop (strElemsTail (f2 :: fs) ++ ']' :: rest) = true := by
        rw [strElemsTail_cons, List.cons_append]
        exact digitStop_head ',' _ (by decide)
      have hv := rtVal e f (strElemsTail (f2 :: fs) ++ ']' :: rest) (by omega) hstop2
      have harg : strElems (e :: f2 :: fs) ++ ']' :: rest
          = stringify e ++ (strElemsTail (f2 :: fs) ++ ']' :: rest) := by
        rw [strElems]
        simp [List.append_assoc]
      rw [harg, parseItems, hv]
      have hrec := rtItems f2 fs f rest (by omega)
      have hdw : dropWs (strElemsTail (f2 :: fs) ++ ']' :: rest)
          = ',' :: (strElems (f2 :: fs) ++ ']' :: rest) := by
        rw [strElemsTail_cons, List.cons_append]
        exact dropWs_cons_notws (by decide) _
      simp +decide only [hdw, hrec]
      simp
  termination_by e es _ _ _ => sizeOf e + sizeOf es + 1
  decreasing_by all_goals (subst_vars; simp; omega)

theorem rtFields : ∀ (k : JStr) (v : JsValue) (fs : List (JStr × JsValue))
    (fuel : Nat) (rest : JStr),
    fieldsSize ((k, v) :: fs) ≤ fuel →
    parseFields fuel (strFields ((k, v) :: fs) ++ closeBr :: rest) = some ((k, v) :: fs, rest)
  | k, v, fs, 0, rest, hsz => by
      rw [fieldsSize] at hsz
      omega
  | k, v, [], f + 1, rest, hsz => by
      rw [fieldsSize] at hsz
      have hv := rtVal v f (strFieldsTail [] ++ closeBr :: rest) (by omega)
        (digitStop_head closeBr rest (by decide))
      have harg : strFields ((k, v) :: []) ++ closeBr :: rest
          = quoteCh :: (escStr k ++ quoteCh :: (':' :: (stringify v
              ++ (strFieldsTail [] ++ closeBr :: rest)))) := by
        rw [strFields]
        simp [List.append_assoc]
      have hscan := scanStr_escStr k
        (':' :: (stringify v ++ (strFieldsTail [] ++ closeBr :: rest)))
      have hdw2 : dropWs (':' :: (stringify v ++ (strFieldsTail [] ++ closeBr :: rest)))
          = ':' :: (stringify v ++ (strFieldsTail [] ++ closeBr :: rest)) :=
        dropWs_cons_notws (by decide) _
      rw [harg, parseFields, dropWs_cons_notws (by decide)]
      have hdw3 : dropWs (strFieldsTail ([] : List (JStr × JsValue)) ++ closeBr :: rest)
          = closeBr :: rest := by
        rw [strFieldsTail]
        exact dropWs_cons_notws (by decide) _
      simp +decide only [hscan, hdw2, hv, hdw3]
      simp
  | k, v, (k2, v2) :: gs, f + 1, rest, hsz => by
      rw [fieldsSize] at hsz
      have hstop2 : digitStop (strFieldsTail ((k2, v2) :: gs) ++ closeBr :: rest) = true := by
        rw [strFieldsTail_cons, List.cons_append]
        exact digitStop_head ',' _ (by decide)
      have hv := rtVal v f (strFieldsTail ((k2, v2) :: gs) ++ closeBr :: rest) (by omega) hstop2
      have harg : strFields ((k, v) :: (k2, v2) :: gs) ++ closeBr :: rest
          = quoteCh :: (escStr k ++ quoteCh :: (':' :: (stringify v
              ++ (strFieldsTail ((k2, v2) :: gs) ++ closeBr :: rest)))) := by
        rw [strFields]
        simp [List.append_assoc]
      have hscan := scanStr_escStr k
        (':' :: (stringify v ++ (strFieldsTail ((k2, v2) :: gs) ++ closeBr :: rest)))
      have hdw2 : dropWs (':' :: (stringify v ++ (strFieldsTail ((k2, v2) :: gs)
              ++ closeBr :: rest)))
          = ':' :: (stringify v ++ (strFieldsTail ((k2, v2) :: gs) ++ closeBr :: rest)) :=
        dropWs_cons_notws (by decide) _
      rw [harg, parseFields, dropWs_cons_notws (by decide)]
      have hrec := rtFields k2 v2 gs f rest (by omega)
      have hdw3 : dropWs (strFieldsTail ((k2, v2) :: gs) ++ closeBr :: rest)
          = ',' :: (strFields ((k2, v2) :: gs) ++ closeBr :: rest) := by
        rw [strFieldsTail_cons, List.cons_append]
        exact dropWs_cons_notws (by decide) _
      simp +decide only [hscan, hdw2, hv, hdw3, hrec]
      simp
  termination_by k v fs _ _ _ => sizeOf v + sizeOf fs + 1
  decreasing_by all_goals (subst_vars; simp; omega)

end

/-- The document-level round trip: `JSON.parse ∘ JSON.stringify` is the
    identity on the modelled value universe. -/
theorem jsonParse_stringify (v : JsValue) : jsonParse (stringify v) = some v := by
  have hfuel : jsSize v ≤ (stringify v).length + 1 := by
    have := jsSize_le v
    omega
  have h := rtVal v ((stringify v).length + 1) [] hfuel (by rw [digitStop])
  rw [List.append_nil] at h
  rw [jsonParse, h]
  rfl

/-! ### The frame layer: JS `String.split(' ')` / `Array.join(' ')`

`onMessage` splits an inbound frame on single spaces and re-joins the tail,
so a JSON payload containing spaces survives framing.  `splitSp`/`joinSp`
model `split(' ')` and `join(' ')` over character lists. -/

def splitSp : JStr → List JStr
  | [] => [[]]
  | c :: rest =>
      match splitSp rest with
      | [] => [[c]]
      | h :: t => if c = ' ' then [] :: h :: t else (c :: h) :: t

def joinSpTail : List JStr → JStr
  | [] => []
  | x :: t => ' ' :: (x ++ joinSpTail t)

def joinSp : List JStr → JStr
  | [] => []
  | x :: t => x ++ joinSpTail t

theorem splitSp_ne_nil (s : JStr) : splitSp s ≠ [] := by
  cases s with
  | nil => simp [splitSp]
  | cons c rest =>
      rw [splitSp]
      cases hs : splitSp rest with
      | nil => simp
      | cons h t => by_cases hc : c = ' ' <;> simp [hc]

/-- Splitting a frame whose name holds no space yields the name first. -/
theorem splitSp_frame {name : JStr} (h : ' ' ∉ name) (s : JStr) :
    splitSp (name ++ ' ' :: s) = name :: splitSp s := by
  induction name with
  | nil =>
      rw [List.nil_append, splitSp]
      cases hs : splitSp s with
      | nil => exact absurd hs (splitSp_ne_nil s)
      | cons a t => simp
  | cons d name2 ih =>
      have hd : d ≠ ' ' := fun e => h (e ▸ List.mem_cons_self _ _)
      have ih2 := ih (fun hm => h (List.mem_cons_of_mem _ hm))
      rw [List.cons_append, splitSp, ih2]
      simp [hd]

theorem joinSp_splitSp (s : JStr) : joinSp (splitSp s) = s := by
  induction s with
  | nil => rfl
  | cons c rest ih =>
      rw [splitSp]
      cases hs : splitSp rest with
      | nil => exact absurd hs (splitSp_ne_nil rest)
      | cons h t =>
          rw [hs] at ih
          by_cases hc : c = ' '
          · subst hc
            simp only [if_pos rfl]
            show ' ' :: (h ++ joinSpTail t) = ' ' :: rest
            rw [show h ++ joinSpTail t = joinSp (h :: t) from rfl, ih]
          · simp only [if_neg hc]
            show (c :: h) ++ joinSpTail t = c :: rest
            rw [List.cons_append, show h ++ joinSpTail t = joinSp (h :: t) from rfl, ih]

/-! ### `CoopClient` — the peer message protocol (`src/coop.ts`, lines 308–603)

State fields mirror the private fields of the class; `closed` records that
`RTCPeerConnection.close()` has been called.  Callback values are not
representable (only dispatch is observable), so `callbacks` keeps the
registered names: `_callbacks.get(name)` is defined exactly when the name is
in the list, and calling it is recorded in the `dispatched` output.
A method that can throw returns the state as mutated up to the throw. -/

inductive VerifyRes : Type where
  | ok : VerifyRes
  /-- `result` was false: the connection is closed and an `Error` thrown. -/
  | reject : VerifyRes
  /-- `Object.entries(null)` threw a `TypeError` before any close. -/
  | typeError : VerifyRes
deriving DecidableEq

structure CoopClient where
  protocol : List (JStr × JsValue)
  callbacks : List JStr
  protocolFinished : Bool
  otherProtocol : List (JStr × JsValue)
  otherProtocolFinished : Bool
  queuedMessages : List (JStr × JsValue)
  closed : Bool

def protocolAddS : JStr := "ProtocolAdd".data

def protocolFinishS : JStr := "ProtocolFinish".data

namespace CoopClient

/-- `Object.entries(this._protocol.get(name))` of the loop body (line 374):
    `Object.entries` throws a `TypeError` on `undefined` (an unregistered
    name) and on `null`, modelled as `none`. -/
def sampleEntries? : Option JsValue → Option (List (JStr × JsValue))
  | none => none
  | some JsValue.jnull => none
  | some s => some (jsEntries s)

/-- The `for` loop of `verifyMessage` (lines 372–378): runs while `result`
    holds, looks the incoming entry's key up in the sample's entries, counts
    the hits, and clears `result` on a missing key or a `typeof` mismatch.
    `Sum.inr` is the `TypeError` of `Object.entries` on a `null` (or absent)
    sample, thrown the first time the body runs. -/
def verifyLoop (sample? : Option JsValue) :
    List (JStr × JsValue) → Bool → Nat → Sum (Bool × Nat) Unit
  | [], result, matching => Sum.inl (result, matching)
  | e :: rest, result, matching =>
      if result then
        match sampleEntries? sample? with
        | none => Sum.inr ()
        | some es =>
            match es.find? (fun p => p.1 == e.1) with
            | some kv => verifyLoop sample? rest (jsTypeof kv.2 == jsTypeof e.2) (matching + 1)
            | none => verifyLoop sample? rest false matching
      else Sum.inl (result, matching)

/-- `verifyMessage` (lines 367–385): name registered and `typeof` equal; for
    object-typed payloads additionally the entry loop above followed by
    `entries.length === matching`.  `Object.entries(obj)` throws on `null`. -/
def verifyMessage (proto : List (JStr × JsValue)) (name : JStr) (v : JsValue) : VerifyRes :=
  let result := JsMap.hasKey proto name &&
    (match JsMap.get? proto name with
     | some s => jsTypeof v == jsTypeof s
     | none => false)
  if jsTypeof v == typeObjectS then
    match v with
    | JsValue.jnull => VerifyRes.typeError
    | _ =>
        let entries := jsEntries v
        match verifyLoop (JsMap.get? proto name) entries result 0 with
        | Sum.inl (r, matching) =>
            if r && entries.length == matching then VerifyRes.ok else VerifyRes.reject
        | Sum.inr _ => VerifyRes.typeError
  else
    if result then VerifyRes.ok else VerifyRes.reject

/-- The wire frame `sendMessage` writes: `` `${name} ${JSON.stringify(obj)}` ``. -/
def frameOf (name : JStr) (v : JsValue) : JStr := name ++ ' ' :: stringify v

/-- The outcome of `sendMessage`: the client afterwards, the frames written
    to the data channel, and `some willQueue`, or `none` if it threw. -/
structure SendOut where
  client : CoopClient
  sent : List JStr
  ret : Option Bool

/-- `sendMessage` (lines 404–412): verify against the local registry (closing
    and throwing on failure), then queue — keyed by name — while either
    protocol-finished flag is false, else transmit. -/
def sendMessage (c : CoopClient) (name : JStr) (obj : JsValue) : SendOut :=
  match verifyMessage c.protocol name obj with
  | VerifyRes.reject => ⟨{c with closed := true}, [], none⟩
  | VerifyRes.typeError => ⟨c, [], none⟩
  | VerifyRes.ok =>
      let willQueue := !c.otherProtocolFinished || !c.protocolFinished
      if willQueue then
        ⟨{c with queuedMessages := JsMap.set c.queuedMessages name obj}, [], some true⟩
      else ⟨c, [frameOf name obj], some false⟩

/-- `addTwoWayProtocol` (lines 353–365): rejects names with spaces and
    registration after local finish (`none` models the throw); otherwise
    announces the sample on the wire and records sample and callback.
    Function/symbol/undefined samples are outside `JsValue`, matching the
    constructor's third guard. -/
def addTwoWayProtocol (c : CoopClient) (name : JStr) (obj : JsValue) :
    Option (CoopClient × List JStr) :=
  if name.contains ' ' then none
  else if c.protocolFinished then none
  else some
    ({c with protocol := JsMap.set c.protocol name obj,
             callbacks := if c.callbacks.contains name then c.callbacks
                          else c.callbacks ++ [name]},
     [protocolAddS ++ ' ' :: (name ++ ' ' :: stringify obj)])

/-- The `forEach` of `finishProtocol`/`onMessage` that re-verifies every
    sample the remote declared; `Sum.inr` aborts at the first failure with
    the state as mutated (the connection closed when `result` was false). -/
def verifyAll (c : CoopClient) : List (JStr × JsValue) → Sum CoopClient CoopClient
  | [] => Sum.inl c
  | (k, v) :: rest =>
      match verifyMessage c.protocol k v with
      | VerifyRes.ok => verifyAll c rest
      | VerifyRes.reject => Sum.inr {c with closed := true}
      | VerifyRes.typeError => Sum.inr c

/-- `finishProtocol` (lines 390–395): set the local flag, send
    `ProtocolFinish`, and — when the remote already finished — cross-verify
    the remote registry.  The queue is NOT flushed here.  The `Bool` is true
    when the cross-verification threw (the exception reaches the caller). -/
def finishProtocol (c : CoopClient) : CoopClient × List JStr × Bool :=
  let c1 := {c with protocolFinished := true}
  if c1.otherProtocolFinished then
    match verifyAll c1 c1.otherProtocol with
    | Sum.inl c2 => (c2, [protocolFinishS], false)
    | Sum.inr c2 => (c2, [protocolFinishS], true)
  else (c1, [protocolFinishS], false)

/-- The `forEach` of the `ProtocolFinish` branch: re-send every queued
    message in map insertion order.  A send that queues again re-`set`s an
    existing key with its current value, leaving the map unchanged, so
    iterating the entry snapshot models the live-map `forEach`.  `Sum.inr`
    aborts at a send that threw, with the frames written so far. -/
def flushQueued (c : CoopClient) :
    List (JStr × JsValue) → Sum (CoopClient × List JStr) (CoopClient × List JStr)
  | [] => Sum.inl (c, [])
  | (k, v) :: rest =>
      match sendMessage c k v with
      | ⟨c2, out, some _⟩ =>
          match flushQueued c2 rest with
          | Sum.inl (c3, out2) => Sum.inl (c3, out ++ out2)
          | Sum.inr (c3, out2) => Sum.inr (c3, out ++ out2)
      | ⟨c2, out, none⟩ => Sum.inr (c2, out)

/-- The outcome of `onMessage`: the client, frames written while handling,
    and the `(name, payload)` calls made to registered callbacks. -/
structure RecvOut where
  client : CoopClient
  sent : List JStr
  dispatched : List (JStr × JsValue)

/-- `onMessage` (lines 414–442): split on spaces; `ProtocolAdd` records a
    remote sample (fatal after remote-finish); `ProtocolFinish` sets the
    remote flag, cross-verifies if local is finished, re-sends the queue and
    clears it; anything else is parsed, verified and dispatched.  Every
    throw is caught by the surrounding `try` which closes the connection,
    keeping mutations made before the throw. -/
def onMessage (c : CoopClient) (data : JStr) : RecvOut :=
  match splitSp data with
  | [] => ⟨{c with closed := true}, [], []⟩
  | a0 :: args1 =>
      if a0 == protocolAddS then
        if c.otherProtocolFinished then ⟨{c with closed := true}, [], []⟩
        else
          match args1 with
          | [] => ⟨{c with closed := true}, [], []⟩
          | a1 :: rest2 =>
              match jsonParse (joinSp rest2) with
              | none => ⟨{c with closed := true}, [], []⟩
              | some obj =>
                  ⟨{c with otherProtocol := JsMap.set c.otherProtocol a1 obj}, [], []⟩
      else if a0 == protocolFinishS then
        if c.otherProtocolFinished then ⟨{c with closed := true}, [], []⟩
        else
          let c1 := {c with otherProtocolFinished := true}
          match (if c1.protocolFinished then verifyAll c1 c1.otherProtocol
                 else Sum.inl c1) with
          | Sum.inr c2 => ⟨{c2 with closed := true}, [], []⟩
          | Sum.inl c2 =>
              match flushQueued c2 c2.queuedMessages with
              | Sum.inr (c3, out) => ⟨{c3 with closed := true}, out, []⟩
              | Sum.inl (c3, out) => ⟨{c3 with queuedMessages := []}, out, []⟩
      else
        match jsonParse (joinSp args1) with
        | none => ⟨{c with closed := true}, [], []⟩
        | some obj =>
            match verifyMessage c.protocol a0 obj with
            | VerifyRes.reject => ⟨{c with closed := true}, [], []⟩
            | VerifyRes.typeError => ⟨{c with closed := true}, [], []⟩
            | VerifyRes.ok =>
                if c.callbacks.contains a0 then ⟨c, [], [(a0, obj)]⟩
                else ⟨{c with closed := true}, [], []⟩

end CoopClient

/-! ### `CoopSeedablePRNG` (`src/coop.ts`, lines 308–323)

JS bitwise operators coerce their operands with `ToInt32`; `<<` is a 32-bit
shift, `>>` the sign-propagating (arithmetic) shift, `^` bitwise xor on the
32-bit patterns.  `toInt32` and the three operators below model this over
`Int`; `toUInt32n` reads off the 32-bit pattern of a value. -/

/-- ECMAScript `ToInt32`: reduce modulo 2^32 into `[-2^31, 2^31)`. -/
def toInt32 (i : Int) : Int :=
  if i % 4294967296 < 2147483648 then i % 4294967296
  else i % 4294967296 - 4294967296

/-- The 32-bit pattern of a JS number, as a natural number below 2^32. -/
def toUInt32n (i : Int) : Nat := (i % 4294967296).toNat

/-- JS `a << n`. -/
def jsShl (a : Int) (n : Nat) : Int := toInt32 (toInt32 a * 2 ^ n)

/-- JS `a >> n` (arithmetic shift = floor division of the signed value). -/
def jsSar (a : Int) (n : Nat) : Int := Int.fdiv (toInt32 a) (2 ^ n)

/-- JS `a ^ b`: xor of the 32-bit patterns, reread as signed. -/
def jsXor (a b : Int) : Int := toInt32 ((Nat.xor (toUInt32n a) (toUInt32n b) : Nat) : Int)

/-- `Math.round` on the integral numbers of the model is the identity. -/
def mathRound (i : Int) : Int := i

structure CoopSeedablePRNG where
  seed : Int
  current : Int
deriving DecidableEq

/-- The constructor: `this._current = this.seed = Math.round(seed)`. -/
def CoopSeedablePRNG.ofSeed (seed : Int) : CoopSeedablePRNG :=
  ⟨mathRound seed, mathRound seed⟩

/-- The value `next()` computes (lines 313–315): the three xorshift steps in
    JS signed 32-bit arithmetic. -/
def CoopSeedablePRNG.nextVal (p : CoopSeedablePRNG) : Int :=
  let c1 := jsXor p.current (jsShl p.current 13)
  let c2 := jsXor c1 (jsSar c1 17)
  jsXor c2 (jsShl c2 5)

/-- `next()` (lines 312–318): compute the new state, store it in
    `_current`, return it. -/
def CoopSeedablePRNG.next (p : CoopSeedablePRNG) : Int × CoopSeedablePRNG :=
  (p.nextVal, ⟨p.seed, p.nextVal⟩)

/-- The first `n` outputs of a generator. -/
def prngOutputsAux (p : CoopSeedablePRNG) : Nat → List Int
  | 0 => []
  | n + 1 => (p.next).1 :: prngOutputsAux (p.next).2 n

/-- The first `n` outputs from a fresh generator with the given seed. -/
def prngOutputs (seed : Int) (n : Nat) : List Int :=
  prngOutputsAux (CoopSeedablePRNG.ofSeed seed) n

/-- The specification-side second implementation: `x ^= x<<13; x ^= x>>17;
    x ^= x<<5` computed purely on 32-bit patterns (`Nat` below 2^32), with
    the arithmetic right shift filling the top bits with the sign bit. -/
def xsLeft (x n : Nat) : Nat := (x * 2 ^ n) % 4294967296

def xsRightA (x n : Nat) : Nat :=
  if x < 2147483648 then x / 2 ^ n
  else x / 2 ^ n + (4294967296 - 4294967296 / 2 ^ n)

def xorshift32 (x : Nat) : Nat :=
  let a := Nat.xor x (xsLeft x 13)
  let b := Nat.xor a (xsRightA a 17)
  Nat.xor b (xsLeft b 5)

theorem emod_toInt32 (i : Int) : toInt32 i % 4294967296 = i % 4294967296 := by
  unfold toInt32
  split <;> omega

theorem toUInt32n_cast (a : Int) : ((toUInt32n a : Nat) : Int) = a % 4294967296 := by
  unfold toUInt32n
  rw [Int.toNat_of_nonneg (Int.emod_nonneg a (by norm_num))]

theorem toUInt32n_lt (a : Int) : toUInt32n a < 4294967296 := by
  unfold toUInt32n
  omega

theorem toUInt32n_jsShl (a : Int) (n : Nat) :
    toUInt32n (jsShl a n) = xsLeft (toUInt32n a) n := by
  show ((toInt32 (toInt32 a * 2 ^ n)) % 4294967296).toNat = _
  rw [emod_toInt32, Int.mul_emod, emod_toInt32, ← Int.mul_emod]
  unfold xsLeft toUInt32n
  have hnn : 0 ≤ a % 4294967296 := Int.emod_nonneg a (by norm_num)
  have key : ((a * 2 ^ n) % 4294967296 : Int)
      = (((a % 4294967296).toNat * 2 ^ n % 4294967296 : Nat) : Int) := by
    push_cast [Int.toNat_of_nonneg hnn]
    rw [Int.mul_emod]
    conv_rhs => rw [Int.mul_emod]
    rw [Int.emod_emod_of_dvd _ dvd_rfl]
  rw [key, Int.toNat_natCast]

theorem toUInt32n_jsXor (a b : Int) :
    toUInt32n (jsXor a b) = Nat.xor (toUInt32n a) (toUInt32n b) := by
  have h1 := toUInt32n_lt a
  have h2 := toUInt32n_lt b
  have hp : (2:Nat) ^ 32 = 4294967296 := by norm_num
  have hxlt : Nat.xor (toUInt32n a) (toUInt32n b) < 4294967296 := by
    rw [← hp] at h1 h2 ⊢
    exact Nat.xor_lt_two_pow h1 h2
  unfold toUInt32n at hxlt ⊢
  unfold jsXor toInt32 toUInt32n
  split <;> omega

theorem toUInt32n_jsSar17 (a : Int) :
    toUInt32n (jsSar a 17) = xsRightA (toUInt32n a) 17 := by
  unfold jsSar
  rw [Int.fdiv_eq_ediv _ (by norm_num)]
  unfold toInt32 toUInt32n xsRightA
  rw [show ((2:Int) ^ 17) = 131072 by norm_num, show ((2:Nat) ^ 17) = 131072 by norm_num]
  split <;> split <;> omega

/-- The two implementations agree bit-exactly on every state: the signed JS
    computation of `next` and the pure pattern computation `xorshift32`
    produce the same 32-bit pattern. -/
theorem next_bitexact (p : CoopSeedablePRNG) :
    toUInt32n (p.next).1 = xorshift32 (toUInt32n p.current) := by
  unfold CoopSeedablePRNG.next CoopSeedablePRNG.nextVal xorshift32
  simp only [toUInt32n_jsXor, toUInt32n_jsShl, toUInt32n_jsSar17]

/-! ### `SignalServer` — the signaling relay (`src/app.ts`)

Connections are identified by a socket number.  Effects are collected as
`ServerAct`s in order.  The per-message `try`/`catch` of `run` (lines
107–114) swallows every exception after logging it, keeping whatever state
mutations happened before the throw, so each handler returns the state as
mutated up to its throw point together with a `threw` flag. -/

inductive ServerAct : Type where
  | sendTo (sock : Nat) (msg : JStr)
  | closeSock (sock : Nat)
deriving DecidableEq

structure SessionUser where
  socket : Nat
  completed : Bool
deriving DecidableEq

structure Session where
  users : List SessionUser
  timestamp : Int
deriving DecidableEq

structure SignalServerUser where
  socket : Nat
  sessionId : JStr
deriving DecidableEq

abbrev Sessions := List (JStr × Session)

def clientJoinS : JStr := "ClientJoin".data

namespace SignalServer

structure JoinOut where
  sessions : Sessions
  client : SignalServerUser
  acts : List ServerAct
  threw : Bool
deriving DecidableEq

/-- The stale-membership block of `handleJoinSession` (lines 43–49): it
    executes `sessions.get(cid)!.users = arr.splice(i, 1)`: `splice` removes
    element `i` from the array in place and RETURNS the removed elements, so
    the assignment replaces the member list with the one-element array
    holding exactly the member that was to be removed. -/
def staleRemoval (sessions : Sessions) (client : SignalServerUser) : Sessions :=
  if client.sessionId ≠ [] ∧ JsMap.hasKey sessions client.sessionId then
    match JsMap.get? sessions client.sessionId with
    | some sOld =>
        match sOld.users.findIdx? (fun a => a.socket == client.socket) with
        | some i =>
            JsMap.set sessions client.sessionId
              { sOld with users := (sOld.users.get? i).toList }
        | none => sessions
    | none => sessions
  else sessions

/-- `handleJoinSession` (lines 40–58).  `sessions.get(id)!` on an absent id
    yields `undefined`, and reading `.users` from it throws. -/
def handleJoinSession (sessions : Sessions) (id : JStr) (client : SignalServerUser) :
    JoinOut :=
  let sessions1 := staleRemoval sessions client
  match JsMap.get? sessions1 id with
  | none => ⟨sessions1, client, [], true⟩
  | some session =>
      if session.users.length ≥ 2 then ⟨sessions1, client, [], false⟩
      else
        ⟨JsMap.set sessions1 id
            { session with users := session.users ++ [⟨client.socket, false⟩] },
          { client with sessionId := id },
          session.users.map (fun u => ServerAct.sendTo u.socket clientJoinS),
          false⟩

def alphabet52 : JStr := "ABCDEFGHIJKLMNOPQRSTUVWXYZabcdefghijklmnopqrstuvwxyz".data

/-- The base-52 rendering loop of `handleRequestSessionId` (lines 27–34),
    with the `crypto.randomBytes` output passed in as `entropy`. -/
def sessionIdOf : List Nat → Nat → JStr
  | [], _ => []
  | b :: rest, curr =>
      let curr2 := curr + b
      alphabet52.getD (curr2 % 52) ' ' :: sessionIdOf rest (curr2 / 52)

/-- `handleRequestSessionId` (lines 26–38): generate an id, send it to the
    requester, and create an empty session under it. -/
def handleRequestSessionId (sessions : Sessions) (entropy : List Nat)
    (client : SignalServerUser) (now : Int) : Sessions × List ServerAct :=
  let res := sessionIdOf entropy 0
  (JsMap.set sessions res ⟨[], now⟩, [ServerAct.sendTo client.socket res])

/-- JS `String.split('\n')`. -/
def splitNl : JStr → List JStr
  | [] => [[]]
  | c :: rest =>
      match splitNl rest with
      | [] => [[c]]
      | h :: t => if c = '\n' then [] :: h :: t else (c :: h) :: t

structure MsgOut where
  sessions : Sessions
  client : SignalServerUser
  acts : List ServerAct
  threw : Bool
deriving DecidableEq

/-- `parseMessage` (lines 60–88): dispatch on the first newline-separated
    field.  The relay branches read `sessions.get(client.sessionId)!`, which
    throws on an absent session; the `Complete` branch additionally writes
    `users[userIndex].completed` where `userIndex` may be `-1` (a throw,
    after the sends).  An unknown first field falls through the `switch`. -/
def parseMessage (sessions : Sessions) (msg : JStr) (client : SignalServerUser)
    (entropy : List Nat) (now : Int) : MsgOut :=
  match splitNl msg with
  | [] => ⟨sessions, client, [], false⟩
  | a0 :: rest =>
      if a0 == "RequestSessionId".data then
        let r := handleRequestSessionId sessions entropy client now
        ⟨r.1, client, r.2, false⟩
      else if a0 == "JoinSession".data then
        let r := handleJoinSession sessions (rest.headD []) client
        ⟨r.sessions, r.client, r.acts, r.threw⟩
      else if a0 == "IceCandidate".data || a0 == "Description".data then
        match JsMap.get? sessions client.sessionId with
        | none => ⟨sessions, client, [], true⟩
        | some session =>
            ⟨sessions, client,
              (session.users.filter (fun v => v.socket != client.socket)).map
                (fun v => ServerAct.sendTo v.socket msg), false⟩
      else if a0 == "Complete".data then
        match JsMap.get? sessions client.sessionId with
        | none => ⟨sessions, client, [], true⟩
        | some session =>
            match session.users.findIdx? (fun v => v.socket == client.socket) with
            | none =>
                ⟨sessions, client,
                  session.users.map (fun v => ServerAct.sendTo v.socket msg), true⟩
            | some i =>
                let acts1 := ((session.users.enum.filter (fun p => p.1 != i)).map
                  (fun p => ServerAct.sendTo p.2.socket msg))
                let users2 := session.users.enum.map
                  (fun p => if p.1 = i then { p.2 with completed := true } else p.2)
                let allDone := (users2.findIdx? (fun v => v.completed = false)).isNone
                let acts2 := if allDone
                  then users2.map (fun v => ServerAct.closeSock v.socket) else []
                ⟨JsMap.set sessions client.sessionId { session with users := users2 },
                  client, acts1 ++ acts2, false⟩
      else ⟨sessions, client, [], false⟩

/-- The `message` listener installed by `run` (lines 107–114): `parseMessage`
    inside `try`/`catch`; a throw is logged and swallowed, the socket stays
    open, and the state keeps the mutations made before the throw.  The
    `threw` field records that the catch ran. -/
def onSocketMessage (sessions : Sessions) (msg : JStr) (client : SignalServerUser)
    (entropy : List Nat) (now : Int) : MsgOut :=
  parseMessage sessions msg client entropy now

end SignalServer

/-! ### `WordleGame` (`src/wordle.ts`) and `BrowserCoopState` (`src/unnamed/part_003`)

The game state embedded as far as the co-op input path reaches it.  JS
in-place mutation of `WordleCharacter`/`WordleWord` objects becomes
functional update; methods that can throw return `Except Unit`.  Canvas
state (`BrowserWordleBoard`, `createInterface`, `setCharacter`/`setWord` of
`src/browser/render.ts`) is rendering and out of the spec's scope; the
embedded co-op state carries the game, the PRNG and the move-parity
counter.  `wordList.ts` is imported by `src/wordle.ts` but is not among the
sources. -/

inductive WordleCharacterState : Type where
  | Unknown | Black | Yellow | Green
deriving DecidableEq

structure WordleCharacter where
  character : Char
  state : WordleCharacterState
deriving DecidableEq

structure WordleWord where
  word : List WordleCharacter
deriving DecidableEq

/-- `new WordleWord(length)`: cells filled with a blank, `Unknown` state. -/
def WordleWord.ofLength (n : Nat) : WordleWord :=
  ⟨List.replicate n ⟨' ', WordleCharacterState.Unknown⟩⟩

/-- `isFull()`: no cell holds the blank character. -/
def WordleWord.isFull (w : WordleWord) : Bool :=
  w.word.all (fun c => c.character != ' ')

/-- `join()` with the default empty delimiter: the characters in order. -/
def WordleWord.join (w : WordleWord) : JStr :=
  w.word.map (fun c => c.character)

/-- The yellow pass of `colorWord`: walk the non-green cells in order; a
    cell whose character still occurs among the unmatched target characters
    turns yellow and consumes one occurrence (`indexOf` + `splice(j, 1)` =
    erase the first occurrence). -/
def yellowPass : List WordleCharacter → List Char → List WordleCharacter
  | [], _ => []
  | c :: cs, rem =>
      if c.character ∈ rem then
        ⟨c.character, WordleCharacterState.Yellow⟩ :: yellowPass cs (rem.erase c.character)
      else c :: yellowPass cs rem

/-- Reassemble: green cells stay, non-green cells are replaced in order by
    the yellow-pass output (the JS code mutates the shared cell objects). -/
def mergeNonGreen : List WordleCharacter → List WordleCharacter → List WordleCharacter
  | [], _ => []
  | c :: cs, repl =>
      if c.state = WordleCharacterState.Green then c :: mergeNonGreen cs repl
      else
        match repl with
        | [] => c :: mergeNonGreen cs []
        | r :: rs => r :: mergeNonGreen cs rs

/-- `colorWord(target)` (wordle.ts lines 77–100): length check, all cells
    black, greens where the cell matches `target` at its position (removing
    the aligned character from the lowercased target array — the
    index-adjusted `splice` removes exactly the aligned element), then the
    yellow pass over the remaining cells against the remaining characters. -/
def colorWord (w : WordleWord) (target : JStr) : Except Unit WordleWord :=
  if target.length ≠ w.word.length then Except.error ()
  else
    let targetLow := target.map Char.toLower
    let paired := w.word.zip target
    let greened := paired.map (fun p =>
      if p.1.character = p.2 then (⟨p.1.character, WordleCharacterState.Green⟩ : WordleCharacter)
      else ⟨p.1.character, WordleCharacterState.Black⟩)
    let nonGreenCells := (paired.filter (fun p => p.1.character ≠ p.2)).map
      (fun p => (⟨p.1.character, WordleCharacterState.Black⟩ : WordleCharacter))
    let remTarget := ((w.word.zip targetLow).zip target |>.filter
      (fun q => q.1.1.character ≠ q.2)).map (fun q => q.1.2)
    Except.ok ⟨mergeNonGreen greened (yellowPass nonGreenCells remTarget)⟩

structure WordleBoard where
  data : List WordleWord
  targetWord : JStr
  currentWord : Nat
  currentCharacter : Nat
  invalidLetters : List Char
deriving DecidableEq

/-- `new WordleBoard(target, wordCount)` (lines 181–193): positive word
    count, the target lowercased, `wordCount` blank rows. -/
def WordleBoard.make (target : JStr) (wordCount : Nat) : Except Unit WordleBoard :=
  if wordCount = 0 then Except.error ()
  else Except.ok ⟨List.replicate wordCount (WordleWord.ofLength target.length),
    target.map Char.toLower, 0, 0, []⟩

def WordleBoard.currentWordGet (b : WordleBoard) : WordleWord :=
  b.data.getD b.currentWord ⟨[]⟩

def WordleBoard.currentCharGet (b : WordleBoard) : WordleCharacter :=
  (b.currentWordGet).word.getD b.currentCharacter ⟨' ', WordleCharacterState.Unknown⟩

def WordleBoard.setCurrentCharacter (b : WordleBoard) (c : WordleCharacter) : WordleBoard :=
  let w := b.currentWordGet
  { b with data := b.data.set b.currentWord ⟨w.word.set b.currentCharacter c⟩ }

/-- `pushCharacter` (lines 195–202): single character required (else a
    throw); the cell is overwritten (lowercased, `Unknown`), the cursor
    advances while it can. -/
def WordleBoard.pushCharacter (b : WordleBoard) (char : JStr) : Except Unit WordleBoard :=
  if char.length ≠ 1 then Except.error ()
  else
    let b1 := b.setCurrentCharacter ⟨(char.headD ' ').toLower, WordleCharacterState.Unknown⟩
    Except.ok (if b1.currentCharacter + 1 < b1.targetWord.length
      then { b1 with currentCharacter := b1.currentCharacter + 1 } else b1)

/-- `popCharacter` (lines 204–220): blank out the cell under the cursor (or
    step back first when it is already blank), returning the removed
    character.  The assignment `character = ' '` keeps the cell's state. -/
def WordleBoard.popCharacter (b : WordleBoard) : Char × WordleBoard :=
  if b.currentCharGet.character != ' ' then
    (b.currentCharGet.character,
      b.setCurrentCharacter ⟨' ', b.currentCharGet.state⟩)
  else
    let b1 := if 1 ≤ b.currentCharacter
      then { b with currentCharacter := b.currentCharacter - 1 } else b
    (b1.currentCharGet.character,
      b1.setCurrentCharacter ⟨' ', b1.currentCharGet.state⟩)

/-- `pushAndColorWord` (lines 222–232): color the current row, extend
    `invalidLetters` with fresh black letters outside the target, and
    advance to the next row when there is one (resetting the cursor —
    whose range-checked setter throws on a zero-length target). -/
def WordleBoard.pushAndColorWord (b : WordleBoard) : Except Unit (Bool × WordleBoard) :=
  match colorWord b.currentWordGet b.targetWord with
  | Except.error e => Except.error e
  | Except.ok colored =>
      let b1 : WordleBoard := { b with data := b.data.set b.currentWord colored }
      let fresh : List Char := (colored.word.filter (fun c =>
        c.state == WordleCharacterState.Black
          && !b1.invalidLetters.contains c.character
          && !b1.targetWord.contains c.character)).map (fun c => c.character)
      let b2 : WordleBoard := { b1 with invalidLetters := b1.invalidLetters ++ fresh }
      if b2.currentWord + 1 ≥ b2.data.length then
        Except.ok (false, b2)
      else if b2.targetWord.length = 0 then Except.error ()
      else Except.ok (true,
        { b2 with currentWord := b2.currentWord + 1, currentCharacter := 0 })

/-- Modelled from the spec: `wordList.ts` (the `WordList` and
    `WordListManager` collaborators imported by `src/wordle.ts`) is not
    among the sources, and the spec places word-list loading out of scope,
    specifying only the interface the game consumes.  `set` is the word
    membership set, `guessCount` the row count of the list. -/
structure WordList where
  guessCount : Nat
  set : List JStr
deriving DecidableEq

/-- Modelled from the spec: the `WordListManager` interface the game and
    the co-op state consume (`getWordOnIndex`, `getWordCoordinates`,
    `getRandomWord`). -/
structure WordListManagerModel where
  getWordOnIndex : Int → JStr
  getWordCoordinates : JStr → Option WordList
  getRandomWord : JStr

structure WordleGame where
  board : WordleBoard
  list : Option WordList
  message : JStr
  gaveUp : Bool
  queuedGame : WordleBoard
  guidedMode : Bool
deriving DecidableEq

namespace WordleGame

/-- The `board` setter (lines 248–252): store the board, queue it, and look
    the word list up — `getWordCoordinates(...)!.list` throws on a miss. -/
def setBoard (wlm : WordListManagerModel) (g : WordleGame) (b : WordleBoard) :
    Except Unit WordleGame :=
  match wlm.getWordCoordinates b.targetWord with
  | none => Except.error ()
  | some l => Except.ok { g with board := b, queuedGame := b, list := some l }

/-- The descending scan of `isWon` (lines 283–284): the nearest full row at
    or below the given index. -/
def prevFullIdx (data : List WordleWord) : Nat → Option Nat
  | 0 => if (data.getD 0 ⟨[]⟩).isFull then some 0 else none
  | i + 1 => if (data.getD (i + 1) ⟨[]⟩).isFull then some (i + 1)
      else prevFullIdx data i

/-- `isWon` (lines 279–289). -/
def isWon (g : WordleGame) : Bool :=
  if g.gaveUp then false
  else
    match prevFullIdx g.board.data g.board.currentWord with
    | none => false
    | some i =>
        ((g.board.data.getD i ⟨[]⟩).word.filter
          (fun v => v.state != WordleCharacterState.Green)).length == 0

/-- `isLost` (lines 291–294); `word[0]` of a row is modelled by a defaulted
    head (a board's rows are never empty in practice). -/
def isLost (g : WordleGame) : Bool :=
  g.gaveUp || (decide (g.board.currentWord + 1 ≥ g.board.data.length)
    && ((g.board.currentWordGet).word.headD ⟨' ', WordleCharacterState.Unknown⟩).state
        != WordleCharacterState.Unknown)

/-- `changeGameState` (lines 303–313). -/
def changeGameState (wlm : WordListManagerModel) (g : WordleGame) :
    Except Unit WordleGame := do
  let g1 ←
    if g.isWon then do
      let qb ← WordleBoard.make wlm.getRandomWord 6
      pure { g with message := "You won!".data, queuedGame := qb }
    else if g.isLost then do
      let qb ← WordleBoard.make wlm.getRandomWord 6
      pure { g with message := g.board.targetWord, queuedGame := qb }
    else pure g
  pure { g1 with gaveUp := false }

def strOfChar (c : Char) : JStr := [c]

def isForGreenLetter (g : WordleGame) (i : Nat) : Bool :=
  g.board.data.any (fun w =>
    (w.word.getD i ⟨' ', WordleCharacterState.Unknown⟩).state == WordleCharacterState.Green)

def isProperGreenLetter (g : WordleGame) (i : Nat) (c : JStr) : Bool :=
  g.board.data.any (fun w =>
    let cell := w.word.getD i ⟨' ', WordleCharacterState.Unknown⟩
    cell.state == WordleCharacterState.Green && strOfChar cell.character == c)

def isYellowLetterInvalidForPosition (g : WordleGame) (i : Nat) (c : JStr) : Bool :=
  g.board.data.any (fun w =>
    let cell := w.word.getD i ⟨' ', WordleCharacterState.Unknown⟩
    strOfChar cell.character == c && cell.state == WordleCharacterState.Yellow)

def isGreenLetterInvalidForPosition (g : WordleGame) (i : Nat) (c : JStr) : Bool :=
  g.board.data.any (fun w =>
    let cell := w.word.getD i ⟨' ', WordleCharacterState.Unknown⟩
    strOfChar cell.character == c && cell.state == WordleCharacterState.Black)

/-- `isCharacterValid` (lines 331–335). -/
def isCharacterValid (g : WordleGame) (c : JStr) (i : Nat) : Bool :=
  (g.isForGreenLetter i && g.isProperGreenLetter i c)
    || (!g.isForGreenLetter i && !g.isYellowLetterInvalidForPosition i c
        && !g.isGreenLetterInvalidForPosition i c
        && !(g.board.invalidLetters.map strOfChar).contains c)

def isAlphaCh (c : Char) : Bool :=
  (65 ≤ c.toNat && c.toNat ≤ 90) || (97 ≤ c.toNat && c.toNat ≤ 122)

/-- `onPushCharacter` (lines 337–346): the `^[a-zA-Z]+$` test throws on
    failure; guided mode gates the push. -/
def onPushCharacter (g : WordleGame) (character : JStr) :
    Except Unit (Bool × WordleGame) :=
  if !(decide (character.length ≥ 1) && character.all isAlphaCh) then Except.error ()
  else if !g.guidedMode || g.isCharacterValid character g.board.currentCharacter then do
    let b ← g.board.pushCharacter character
    Except.ok (true, { g with board := b })
  else Except.ok (false, g)

/-- `onPopCharacter` (lines 348–350). -/
def onPopCharacter (g : WordleGame) : Bool × WordleGame :=
  let r := g.board.popCharacter
  (r.1 != ' ', { g with board := r.2 })

/-- `onPushWord` (lines 352–366). -/
def onPushWord (wlm : WordListManagerModel) (g : WordleGame) :
    Except Unit (Bool × WordleGame) :=
  let cw := g.board.currentWordGet
  if !cw.isFull then
    Except.ok (false, { g with message := "Word is not full".data })
  else if (match g.list with
           | none => true
           | some l => l.set.contains cw.join) then do
    let pr ← g.board.pushAndColorWord
    let g1 := { g with board := pr.2 }
    let g2 ← g1.changeGameState wlm
    Except.ok (true, g2)
  else
    Except.ok (false, { g with message :=
      "Word ".data ++ [quoteCh] ++ cw.join ++ [quoteCh] ++ " does not exist.".data })

/-- `restart(word)` (lines 296–301). -/
def restart (wlm : WordListManagerModel) (g : WordleGame) (word : JStr) :
    Except Unit WordleGame := do
  match wlm.getWordCoordinates word with
  | none => Except.error ()
  | some coords => do
      let b ← WordleBoard.make word coords.guessCount
      g.setBoard wlm b

end WordleGame

/-- The turn-coordination slice of `BrowserCoopState` (`src/unnamed/part_003`):
    the game, the PRNG (`_rng`), the move-parity counter (`_wordState`, only
    ever incremented, so a `Nat`) and the pending word proposal
    (`_queuedWord`).  Rendering members are out of scope. -/
structure BrowserCoopState where
  game : WordleGame
  rng : CoopSeedablePRNG
  wordState : Nat
  queuedWord : Option JStr
deriving DecidableEq

namespace BrowserCoopState

/-- `tryStartNextGame` (part_003): when the game is decided, draw the next
    word index from the shared PRNG and restart (`createInterface` is
    rendering). -/
def tryStartNextGame (wlm : WordListManagerModel) (st : BrowserCoopState) :
    Except Unit BrowserCoopState :=
  if !st.game.isWon && !st.game.isLost then Except.ok st
  else do
    let r := st.rng.next
    let g ← st.game.restart wlm (wlm.getWordOnIndex r.1)
    Except.ok { st with game := g, rng := r.2 }

/-- `physPushChar` (the `board.setCharacter` call is rendering). -/
def physPushChar (wlm : WordListManagerModel) (st : BrowserCoopState) (char : JStr) :
    Except Unit BrowserCoopState := do
  let st1 ← tryStartNextGame wlm st
  let pr ← st1.game.onPushCharacter char
  Except.ok { st1 with game := pr.2 }

/-- `physPopChar`. -/
def physPopChar (wlm : WordListManagerModel) (st : BrowserCoopState) :
    Except Unit BrowserCoopState := do
  let st1 ← tryStartNextGame wlm st
  Except.ok { st1 with game := (st1.game.onPopCharacter).2 }

/-- `physPushWord`: a successful submission advances the parity counter. -/
def physPushWord (wlm : WordListManagerModel) (st : BrowserCoopState) :
    Except Unit BrowserCoopState := do
  let st1 ← tryStartNextGame wlm st
  let pr ← st1.game.onPushWord wlm
  let st2 := { st1 with game := pr.2 }
  Except.ok (if pr.1 then { st2 with wordState := st2.wordState + 1 } else st2)

/-- `onPushWord` (part_003 lines 610–615): out-of-turn input returns before
    anything runs; in turn, apply and transmit the joined current word. -/
def onPushWord (wlm : WordListManagerModel) (st : BrowserCoopState) :
    Except Unit (BrowserCoopState × List (JStr × JsValue)) :=
  if st.wordState % 2 ≠ 0 then Except.ok (st, [])
  else do
    let st1 ← physPushWord wlm st
    Except.ok (st1, [("PushWord".data, JsValue.jstr (st1.game.board.currentWordGet).join)])

/-- `onPopCharacter` (lines 617–622). -/
def onPopCharacter (wlm : WordListManagerModel) (st : BrowserCoopState) :
    Except Unit (BrowserCoopState × List (JStr × JsValue)) :=
  if st.wordState % 2 ≠ 0 then Except.ok (st, [])
  else do
    let st1 ← physPopChar wlm st
    Except.ok (st1, [("PopChar".data, JsValue.jstr (st1.game.board.currentWordGet).join)])

/-- `onPushCharacter` (lines 624–629). -/
def onPushCharacter (wlm : WordListManagerModel) (st : BrowserCoopState) (key : JStr) :
    Except Unit (BrowserCoopState × List (JStr × JsValue)) :=
  if st.wordState % 2 ≠ 0 then Except.ok (st, [])
  else do
    let st1 ← physPushChar wlm st key
    Except.ok (st1, [("PushChar".data, JsValue.jstr key)])

/-- `determineStartHandler` (part_003 lines 542–547): keep the local PRNG on
    a winning-or-equal seed, else adopt the remote seed and advance the
    move-parity counter. -/
def determineStartHandler (st : BrowserCoopState) (num : Int) : BrowserCoopState :=
  if st.rng.seed ≥ num then st
  else { st with rng := CoopSeedablePRNG.ofSeed num, wordState := st.wordState + 1 }

end BrowserCoopState

/-! ### The spec's testable properties, checked against the embedding -/

theorem findIdx_mem_of_some {α : Type} {p : α → Bool} :
    ∀ {l : List α} {i : Nat}, List.findIdx? p l = some i → ∃ x ∈ l, p x = true := by
  intro l
  induction l with
  | nil => intro i h; simp [List.findIdx?] at h
  | cons a t ih =>
      intro i h
      rw [List.findIdx?_cons] at h
      by_cases hp : p a = true
      · exact ⟨a, List.mem_cons_self a t, hp⟩
      · rw [if_neg hp, List.findIdx?_succ] at h
        cases hfi : List.findIdx? p t with
        | none => rw [hfi] at h; simp at h
        | some j =>
            obtain ⟨x, hx, hpx⟩ := ih hfi
            exact ⟨x, List.mem_cons_of_mem a hx, hpx⟩

theorem findIdx_none_of_all {α : Type} {p : α → Bool} :
    ∀ {l : List α}, (∀ x ∈ l, p x = false) → List.findIdx? p l = none := by
  intro l
  induction l with
  | nil => intro _; rfl
  | cons a t ih =>
      intro h
      rw [List.findIdx?_cons, if_neg (by simp [h a (List.mem_cons_self a t)]),
        List.findIdx?_succ, ih (fun x hx => h x (List.mem_cons_of_mem a hx))]
      rfl

/-- One incoming entry against the sample: its key is found among the
    sample's entries and the found value's `typeof` agrees.  This names the
    body of `verifyMessage`'s `for` loop (`src/coop.ts` lines 372–378). -/
def entryMatches (s : JsValue) (e : JStr × JsValue) : Bool :=
  match (jsEntries s).find? (fun p => p.1 == e.1) with
  | some kv => jsTypeof kv.2 == jsTypeof e.2
  | none => false

theorem verifyLoop_false (sample? : Option JsValue) (entries : List (JStr × JsValue))
    (m : Nat) : CoopClient.verifyLoop sample? entries false m = Sum.inl (false, m) := by
  cases entries <;> rfl

theorem sampleEntries_ne_null {s : JsValue} (h : s ≠ JsValue.jnull) :
    CoopClient.sampleEntries? (some s) = some (jsEntries s) := by
  cases s <;> first | rfl | exact absurd rfl h

theorem verifyLoop_all (s : JsValue) (hnn : s ≠ JsValue.jnull) :
    ∀ (entries : List (JStr × JsValue)) (m : Nat),
      entries.all (entryMatches s) = true →
      CoopClient.verifyLoop (some s) entries true m = Sum.inl (true, m + entries.length) := by
  intro entries
  induction entries with
  | nil => intro m _; simp [CoopClient.verifyLoop]
  | cons e rest ih =>
      intro m hall
      simp only [List.all_cons, Bool.and_eq_true] at hall
      obtain ⟨he, hrest⟩ := hall
      unfold entryMatches at he
      rw [CoopClient.verifyLoop.eq_def]
      simp only [if_true, sampleEntries_ne_null hnn]
      cases hfind : (jsEntries s).find? (fun p => p.1 == e.1) with
      | none =>
          rw [hfind] at he
          have hf : (false : Bool) = true := he
          cases hf
      | some kv =>
          rw [hfind] at he
          have he2 : (jsTypeof kv.2 == jsTypeof e.2) = true := he
          show CoopClient.verifyLoop (some s) rest (jsTypeof kv.2 == jsTypeof e.2) (m + 1)
            = Sum.inl (true, m + (e :: rest).length)
          rw [he2, ih (m + 1) hrest]
          simp only [List.length_cons, Sum.inl.injEq, Prod.mk.injEq, true_and]
          omega

theorem verifyLoop_not_all (s : JsValue) (hnn : s ≠ JsValue.jnull) :
    ∀ (entries : List (JStr × JsValue)) (m : Nat),
      entries.all (entryMatches s) = false →
      ∃ m', CoopClient.verifyLoop (some s) entries true m = Sum.inl (false, m') := by
  intro entries
  induction entries with
  | nil => intro m h; simp at h
  | cons e rest ih =>
      intro m hall
      simp only [List.all_cons, Bool.and_eq_false_iff] at hall
      rw [CoopClient.verifyLoop.eq_def]
      simp only [if_true, sampleEntries_ne_null hnn]
      cases hfind : (jsEntries s).find? (fun p => p.1 == e.1) with
      | none =>
          exact ⟨m, verifyLoop_false _ rest m⟩
      | some kv =>
          show ∃ m', CoopClient.verifyLoop (some s) rest (jsTypeof kv.2 == jsTypeof e.2) (m + 1)
            = Sum.inl (false, m')
          rcases hall with hfe | hrest
          · unfold entryMatches at hfe
            rw [hfind] at hfe
            have hfe2 : (jsTypeof kv.2 == jsTypeof e.2) = false := hfe
            rw [hfe2]
            exact ⟨m + 1, verifyLoop_false _ rest (m + 1)⟩
          · cases hb : (jsTypeof kv.2 == jsTypeof e.2) with
            | false => exact ⟨m + 1, verifyLoop_false _ rest (m + 1)⟩
            | true => exact ih (m + 1) hrest

theorem flushQueued_ok (c : CoopClient) (hl : c.protocolFinished = true)
    (hr : c.otherProtocolFinished = true) :
    ∀ q : List (JStr × JsValue),
      (∀ p ∈ q, CoopClient.verifyMessage c.protocol p.1 p.2 = VerifyRes.ok) →
      CoopClient.flushQueued c q =
        Sum.inl (c, q.map (fun p => CoopClient.frameOf p.1 p.2)) := by
  intro q
  induction q with
  | nil => intro _; rfl
  | cons p rest ih =>
      intro hq
      obtain ⟨k, v⟩ := p
      have hsend : CoopClient.sendMessage c k v =
          ⟨c, [CoopClient.frameOf k v], some false⟩ := by
        unfold CoopClient.sendMessage
        rw [hq (k, v) (List.mem_cons_self (k, v) rest), hl, hr]
        rfl
      rw [CoopClient.flushQueued.eq_def]
      show (match CoopClient.sendMessage c k v with
        | ⟨c2, out, some _⟩ =>
            match CoopClient.flushQueued c2 rest with
            | Sum.inl (c3, out2) => Sum.inl (c3, out ++ out2)
            | Sum.inr (c3, out2) => Sum.inr (c3, out ++ out2)
        | ⟨c2, out, none⟩ => Sum.inr (c2, out)) = _
      rw [hsend]
      show (match CoopClient.flushQueued c rest with
        | Sum.inl (c3, out2) => Sum.inl (c3, [CoopClient.frameOf k v] ++ out2)
        | Sum.inr (c3, out2) => Sum.inr (c3, [CoopClient.frameOf k v] ++ out2)) = _
      rw [ih (fun x hx => hq x (List.mem_cons_of_mem (k, v) hx))]
      rfl

theorem staleRemoval_get_ne (sessions : Sessions) (client : SignalServerUser)
    {k : JStr} (h : k ≠ client.sessionId) :
    JsMap.get? (SignalServer.staleRemoval sessions client) k = JsMap.get? sessions k := by
  unfold SignalServer.staleRemoval
  split
  · cases hgo : JsMap.get? sessions client.sessionId with
    | none => rfl
    | some sOld =>
        show JsMap.get? (match sOld.users.findIdx? (fun a => a.socket == client.socket) with
          | some i => JsMap.set sessions client.sessionId
              { sOld with users := (sOld.users.get? i).toList }
          | none => sessions) k = JsMap.get? sessions k
        cases hfi : sOld.users.findIdx? (fun a => a.socket == client.socket) with
        | none => rfl
        | some i => exact JsMap.get?_set_ne _ (fun hh => h hh.symm)
  · rfl

theorem staleRemoval_get_none (sessions : Sessions) (client : SignalServerUser)
    (h : JsMap.get? sessions client.sessionId = none) :
    SignalServer.staleRemoval sessions client = sessions := by
  unfold SignalServer.staleRemoval
  split
  · rw [h]
  · rfl

theorem staleRemoval_not_member (sessions : Sessions) (client : SignalServerUser)
    (h : ∀ sOld, JsMap.get? sessions client.sessionId = some sOld →
      ∀ u ∈ sOld.users, u.socket ≠ client.socket) :
    SignalServer.staleRemoval sessions client = sessions := by
  unfold SignalServer.staleRemoval
  split
  · cases hgo : JsMap.get? sessions client.sessionId with
    | none => rfl
    | some sOld =>
        show (match sOld.users.findIdx? (fun a => a.socket == client.socket) with
          | some i => JsMap.set sessions client.sessionId
              { sOld with users := (sOld.users.get? i).toList }
          | none => sessions) = sessions
        rw [findIdx_none_of_all (fun u hu => by
          have := h sOld hgo u hu
          simp [this])]
  · rfl

/-- Follows the spec's words, not the code, for comparison with
    `verifyMessage`: `typeof` identical, and for object-shaped values every
    incoming key found in the sample with the same `typeof` AND exact
    key-count equality against the sample (the spec's "exact key-set
    equality, not subset"). -/
def specShapeMatches (s v : JsValue) : Bool :=
  (jsTypeof v == jsTypeof s) &&
  (if jsTypeof v == typeObjectS then
    (jsEntries v).all (entryMatches s) && ((jsEntries v).length == (jsEntries s).length)
  else true)

/-! Concrete instances used by the closed checks below. -/

def sampleShape : JsValue :=
  JsValue.jobj [("a".data, JsValue.jnum 0), ("b".data, JsValue.jstr [])]

def protoSample : List (JStr × JsValue) := [("m".data, sampleShape)]

def payloadMissingKey : JsValue := JsValue.jobj [("a".data, JsValue.jnum 1)]

/-- Both flags down, nothing queued: sends will queue. -/
def clientQueueing : CoopClient :=
  ⟨[("m".data, JsValue.jnum 0)], ["m".data], false, [], false, [], false⟩

/-- Local side finished, remote not: sends still queue, and an inbound
    `ProtocolFinish` triggers the flush. -/
def clientDup : CoopClient :=
  ⟨[("m".data, JsValue.jnum 0)], ["m".data], true, [("m".data, JsValue.jnum 0)],
    false, [], false⟩

/-- As `clientDup`, with one message already queued. -/
def clientFlushing : CoopClient :=
  ⟨[("m".data, JsValue.jnum 0)], ["m".data], true, [("m".data, JsValue.jnum 0)],
    false, [("m".data, JsValue.jnum 7)], false⟩

def clientEmpty : CoopClient := ⟨[], [], false, [], false, [], false⟩

/-- Registration finished on both sides, `"m"` registered with a string
    sample and a callback. -/
def clientReady : CoopClient :=
  ⟨[("m".data, JsValue.jstr [])], ["m".data], true, [("m".data, JsValue.jstr [])],
    true, [], false⟩

/-- One session `"A"` holding the two members `1` and `2`. -/
def sessionsAB : Sessions := [("A".data, ⟨[⟨1, false⟩, ⟨2, false⟩], 0⟩)]

def clientOne : SignalServerUser := ⟨1, "A".data⟩

def clientThree : SignalServerUser := ⟨3, []⟩

def wlmTrivial : WordListManagerModel := ⟨fun _ => [], fun _ => none, []⟩

def boardNil : WordleBoard := ⟨[], [], 0, 0, []⟩

def gameNil : WordleGame := ⟨boardNil, none, [], false, boardNil, false⟩

def coopStOdd : BrowserCoopState := ⟨gameNil, CoopSeedablePRNG.ofSeed 1, 1, none⟩

def coopStA : BrowserCoopState := ⟨gameNil, CoopSeedablePRNG.ofSeed 1, 0, none⟩

def coopStB : BrowserCoopState := ⟨gameNil, CoopSeedablePRNG.ofSeed 2, 0, none⟩

/-- C8: each `CoopSeedablePRNG.next()` call rewrites the state by exactly
    `x ^= x<<13; x ^= x>>17; x ^= x<<5` in signed 32-bit wraparound
    arithmetic (bit-for-bit: the 32-bit pattern of the returned value equals
    the pure-`Nat` xorshift32 of the old state's pattern, and the new state
    is the returned value), so the output sequence is fully determined by
    the seed; from seed 1 the first five outputs are the listed ones. -/
theorem c8_prng_bitexact_sequence :
    (∀ s c : Int,
        CoopSeedablePRNG.next ⟨s, c⟩ =
          (CoopSeedablePRNG.nextVal ⟨s, c⟩, ⟨s, CoopSeedablePRNG.nextVal ⟨s, c⟩⟩) ∧
        toUInt32n (CoopSeedablePRNG.next ⟨s, c⟩).1 = xorshift32 (toUInt32n c)) ∧
    prngOutputs 1 5 = [270369, 67601921, 1815334946, -792396775, -1481077510] := by
  constructor
  · intro s c
    exact ⟨rfl, next_bitexact ⟨s, c⟩⟩
  · decide

/-- C9: with an odd move-parity counter (`_wordState % 2 !== 0`), the three
    local input handlers of `BrowserCoopState` return the state unchanged
    and send nothing. -/
theorem c9_out_of_turn_ignored (wlm : WordListManagerModel) (st : BrowserCoopState)
    (key : JStr) (h : st.wordState % 2 = 1) :
    BrowserCoopState.onPushWord wlm st = Except.ok (st, []) ∧
    BrowserCoopState.onPopCharacter wlm st = Except.ok (st, []) ∧
    BrowserCoopState.onPushCharacter wlm st key = Except.ok (st, []) := by
  refine ⟨?_, ?_, ?_⟩
  · unfold BrowserCoopState.onPushWord
    rw [if_pos (show st.wordState % 2 ≠ 0 by omega)]
  · unfold BrowserCoopState.onPopCharacter
    rw [if_pos (show st.wordState % 2 ≠ 0 by omega)]
  · unfold BrowserCoopState.onPushCharacter
    rw [if_pos (show st.wordState % 2 ≠ 0 by omega)]

/-- C9 at a concrete state with counter 1. -/
theorem c9_parity_witness :
    BrowserCoopState.onPushWord wlmTrivial coopStOdd = Except.ok (coopStOdd, []) ∧
    BrowserCoopState.onPopCharacter wlmTrivial coopStOdd = Except.ok (coopStOdd, []) ∧
    BrowserCoopState.onPushCharacter wlmTrivial coopStOdd ['a'] =
      Except.ok (coopStOdd, []) :=
  c9_out_of_turn_ignored wlmTrivial coopStOdd ['a'] (by decide)

/-- C3: after a `DetermineStart` exchange of distinct seeds both peers hold
    a PRNG seeded with the larger seed and exactly the smaller-seeded peer
    advances its move-parity counter; on equal seeds both handlers are the
    identity. -/
theorem c3_seed_reconciliation (s1 s2 : Int) (stA stB : BrowserCoopState)
    (hA : stA.rng = CoopSeedablePRNG.ofSeed s1)
    (hB : stB.rng = CoopSeedablePRNG.ofSeed s2) :
    (s1 ≠ s2 →
      (BrowserCoopState.determineStartHandler stA s2).rng =
        CoopSeedablePRNG.ofSeed (max s1 s2) ∧
      (BrowserCoopState.determineStartHandler stB s1).rng =
        CoopSeedablePRNG.ofSeed (max s1 s2)) ∧
    (s1 < s2 →
      (BrowserCoopState.determineStartHandler stA s2).wordState = stA.wordState + 1 ∧
      (BrowserCoopState.determineStartHandler stB s1).wordState = stB.wordState) ∧
    (s2 < s1 →
      (BrowserCoopState.determineStartHandler stA s2).wordState = stA.wordState ∧
      (BrowserCoopState.determineStartHandler stB s1).wordState = stB.wordState + 1) ∧
    (s1 = s2 →
      BrowserCoopState.determineStartHandler stA s2 = stA ∧
      BrowserCoopState.determineStartHandler stB s1 = stB) := by
  have hseedA : stA.rng.seed = s1 := by rw [hA]; rfl
  have hseedB : stB.rng.seed = s2 := by rw [hB]; rfl
  have hAlt : s1 < s2 → BrowserCoopState.determineStartHandler stA s2 =
      { stA with rng := CoopSeedablePRNG.ofSeed s2, wordState := stA.wordState + 1 } := by
    intro hlt
    unfold BrowserCoopState.determineStartHandler
    rw [if_neg (by omega)]
  have hAge : s2 ≤ s1 → BrowserCoopState.determineStartHandler stA s2 = stA := by
    intro hge
    unfold BrowserCoopState.determineStartHandler
    rw [if_pos (by omega)]
  have hBlt : s2 < s1 → BrowserCoopState.determineStartHandler stB s1 =
      { stB with rng := CoopSeedablePRNG.ofSeed s1, wordState := stB.wordState + 1 } := by
    intro hlt
    unfold BrowserCoopState.determineStartHandler
    rw [if_neg (by omega)]
  have hBge : s1 ≤ s2 → BrowserCoopState.determineStartHandler stB s1 = stB := by
    intro hge
    unfold BrowserCoopState.determineStartHandler
    rw [if_pos (by omega)]
  refine ⟨?_, ?_, ?_, ?_⟩
  · intro hne
    rcases lt_or_gt_of_ne hne with hlt | hgt
    · rw [hAlt hlt, hBge (le_of_lt hlt), hB, max_eq_right (le_of_lt hlt)]
      exact ⟨rfl, rfl⟩
    · rw [hAge (le_of_lt hgt), hBlt hgt, hA, max_eq_left (le_of_lt hgt)]
      exact ⟨rfl, rfl⟩
  · intro hlt
    rw [hAlt hlt, hBge (le_of_lt hlt)]
    exact ⟨rfl, rfl⟩
  · intro hgt
    rw [hAge (le_of_lt hgt), hBlt hgt]
    exact ⟨rfl, rfl⟩
  · intro heq
    rw [hAge (le_of_eq heq.symm), hBge (le_of_eq heq)]
    exact ⟨rfl, rfl⟩

/-- C3 at the concrete seed pair (1, 2). -/
theorem c3_seed_witness :
    ((1 : Int) ≠ 2 →
      (BrowserCoopState.determineStartHandler coopStA 2).rng =
        CoopSeedablePRNG.ofSeed (max 1 2) ∧
      (BrowserCoopState.determineStartHandler coopStB 1).rng =
        CoopSeedablePRNG.ofSeed (max 1 2)) ∧
    ((1 : Int) < 2 →
      (BrowserCoopState.determineStartHandler coopStA 2).wordState = coopStA.wordState + 1 ∧
      (BrowserCoopState.determineStartHandler coopStB 1).wordState = coopStB.wordState) ∧
    ((2 : Int) < 1 →
      (BrowserCoopState.determineStartHandler coopStA 2).wordState = coopStA.wordState ∧
      (BrowserCoopState.determineStartHandler coopStB 1).wordState = coopStB.wordState + 1) ∧
    ((1 : Int) = 2 →
      BrowserCoopState.determineStartHandler coopStA 2 = coopStA ∧
      BrowserCoopState.determineStartHandler coopStB 1 = coopStB) :=
  c3_seed_reconciliation 1 2 coopStA coopStB rfl rfl

/-- C4: an inbound frame that is not a well-formed registered message — a
    reserved `ProtocolAdd`/`ProtocolFinish` frame after the remote side
    finished, an unparseable payload, or a payload the local registry does
    not verify (which covers unregistered names) — yields exactly the
    closed connection with nothing transmitted and nothing dispatched to
    any callback (the `catch` also logs it; logging is outside the state
    model). -/
theorem c4_malformed_frame_closes (c : CoopClient) (data a0 : JStr)
    (args1 : List JStr) (hsplit : splitSp data = a0 :: args1)
    (hbad :
      ((a0 == protocolAddS) = false ∧ (a0 == protocolFinishS) = false ∧
        (jsonParse (joinSp args1) = none ∨
         ∀ obj, jsonParse (joinSp args1) = some obj →
           CoopClient.verifyMessage c.protocol a0 obj ≠ VerifyRes.ok)) ∨
      (((a0 == protocolAddS) = true ∨ (a0 == protocolFinishS) = true) ∧
        c.otherProtocolFinished = true)) :
    CoopClient.onMessage c data = ⟨{c with closed := true}, [], []⟩ := by
  simp only [CoopClient.onMessage, hsplit]
  rcases hbad with ⟨hna, hnf, hrest⟩ | ⟨hres, hof⟩
  · rw [hna, hnf]
    simp only [Bool.false_eq_true, if_false]
    cases hp : jsonParse (joinSp args1) with
    | none => rfl
    | some obj =>
        show (match CoopClient.verifyMessage c.protocol a0 obj with
          | VerifyRes.reject => (⟨{c with closed := true}, [], []⟩ : CoopClient.RecvOut)
          | VerifyRes.typeError => ⟨{c with closed := true}, [], []⟩
          | VerifyRes.ok =>
              if c.callbacks.contains a0 then ⟨c, [], [(a0, obj)]⟩
              else ⟨{c with closed := true}, [], []⟩) = ⟨{c with closed := true}, [], []⟩
        rcases hrest with hnone | hver
        · rw [hp] at hnone
          cases hnone
        · cases hvm : CoopClient.verifyMessage c.protocol a0 obj with
          | ok => exact absurd hvm (hver obj hp)
          | reject => rfl
          | typeError => rfl
  · rcases hres with ha | hf
    · rw [ha]
      simp only [if_true]
      rw [hof]
      rfl
    · cases hb : (a0 == protocolAddS) with
      | true =>
          simp only [if_true]
          rw [hof]
          rfl
      | false =>
          simp only [Bool.false_eq_true, if_false]
          rw [hf]
          simp only [if_true]
          rw [hof]
          rfl

/-- C4 at the concrete frame `"x ["`: the payload `"["` does not parse, the
    connection is closed with nothing sent or dispatched. -/
theorem c4_malformed_witness :
    CoopClient.onMessage clientEmpty ['x', ' ', '['] =
      ⟨{clientEmpty with closed := true}, [], []⟩ :=
  c4_malformed_frame_closes clientEmpty ['x', ' ', '['] ['x'] [['[']] rfl
    (Or.inl ⟨by decide, by decide, Or.inl rfl⟩)

/-- C5: a `JoinSession` for a session that already holds two members, from
    a connection that is not one of them, is rejected: the outcome is
    exactly the stale-removal-adjusted map with the requester unchanged, no
    acts (in particular no `ClientJoin`) and no throw, and the target
    session's member list is untouched. -/
theorem c5_full_session_join_rejected (sessions : Sessions) (id : JStr)
    (client : SignalServerUser) (s : Session)
    (hget : JsMap.get? sessions id = some s) (hlen : 2 ≤ s.users.length)
    (hmem : ∀ u ∈ s.users, u.socket ≠ client.socket) :
    SignalServer.handleJoinSession sessions id client =
      ⟨SignalServer.staleRemoval sessions client, client, [], false⟩ ∧
    JsMap.get? (SignalServer.staleRemoval sessions client) id = some s := by
  have hget1 : JsMap.get? (SignalServer.staleRemoval sessions client) id = some s := by
    by_cases hcid : id = client.sessionId
    · rw [staleRemoval_not_member sessions client
        (fun sOld hgo u hu => by
          rw [← hcid, hget] at hgo
          injection hgo with hgo
          subst hgo
          exact hmem u hu)]
      exact hget
    · rw [staleRemoval_get_ne sessions client hcid]
      exact hget
  refine ⟨?_, hget1⟩
  simp only [SignalServer.handleJoinSession, hget1]
  rw [if_pos hlen]

/-- C5 at the concrete two-member session `"A"` and the outside socket 3. -/
theorem c5_full_session_witness :
    SignalServer.handleJoinSession sessionsAB "A".data clientThree =
      ⟨SignalServer.staleRemoval sessionsAB clientThree, clientThree, [], false⟩ ∧
    JsMap.get? (SignalServer.staleRemoval sessionsAB clientThree) "A".data =
      some ⟨[⟨1, false⟩, ⟨2, false⟩], 0⟩ :=
  c5_full_session_join_rejected sessionsAB "A".data clientThree
    ⟨[⟨1, false⟩, ⟨2, false⟩], 0⟩ (by decide) (by decide) (by decide)

/-- C6 (the claim fails against the code): socket 1, a member of the
    two-member session `"A"`, issues `JoinSession` for `"A"` again.  The
    stale-membership block runs `sessions.get(sessionId)!.users =
    arr.splice(i, 1)` (`src/app.ts` line 45), which assigns the array of
    REMOVED elements: the member list becomes exactly the leaver, the other
    member (socket 2) is dropped, and the subsequent push appends socket 1
    a second time — a duplicate membership, the opposite of the claimed
    removal. -/
theorem c6_splice_assignment_bug :
    JsMap.get? (SignalServer.handleJoinSession sessionsAB "A".data clientOne).sessions
        "A".data = some ⟨[⟨1, false⟩, ⟨1, false⟩], 0⟩ ∧
    (SignalServer.handleJoinSession sessionsAB "A".data clientOne).acts =
      [ServerAct.sendTo 1 clientJoinS] := by
  decide

/-- C7: a `JoinSession` naming an absent session id throws inside the
    handler (`sessions.get(args[1])!.users` on `undefined`); `run`'s
    per-message `try`/`catch` logs and swallows it, so the relay does not
    crash and the requesting socket stays open.  The request sends nothing,
    leaves the requester's session id unchanged, and leaves every session
    other than the requester's current one unchanged — but the state it
    keeps is the stale-removal-mutated map, not the original. -/
theorem c7_nonexistent_session_caught (sessions : Sessions) (id : JStr)
    (client : SignalServerUser) (hnone : JsMap.get? sessions id = none) :
    SignalServer.handleJoinSession sessions id client =
      ⟨SignalServer.staleRemoval sessions client, client, [], true⟩ ∧
    (∀ k, k ≠ client.sessionId →
      JsMap.get? (SignalServer.staleRemoval sessions client) k = JsMap.get? sessions k) ∧
    JsMap.get? (SignalServer.staleRemoval sessions client) id = none := by
  have hnone1 : JsMap.get? (SignalServer.staleRemoval sessions client) id = none := by
    by_cases hcid : id = client.sessionId
    · rw [staleRemoval_get_none sessions client (by rw [← hcid]; exact hnone)]
      exact hnone
    · rw [staleRemoval_get_ne sessions client hcid]
      exact hnone
  refine ⟨?_, fun k hk => staleRemoval_get_ne sessions client hk, hnone1⟩
  simp only [SignalServer.handleJoinSession, hnone1]

/-- C7 at the concrete absent id `"B"`. -/
theorem c7_nonexistent_witness :
    SignalServer.handleJoinSession sessionsAB "B".data clientThree =
      ⟨SignalServer.staleRemoval sessionsAB clientThree, clientThree, [], true⟩ ∧
    (∀ k, k ≠ clientThree.sessionId →
      JsMap.get? (SignalServer.staleRemoval sessionsAB clientThree) k =
        JsMap.get? sessionsAB k) ∧
    JsMap.get? (SignalServer.staleRemoval sessionsAB clientThree) "B".data = none :=
  c7_nonexistent_session_caught sessionsAB "B".data clientThree (by decide)

/-- C7's "no session is modified" is false: socket 1 of session `"A"`
    requesting the absent id `"B"` throws as claimed, but the failed
    request has already rewritten its old session's member list (through
    the buggy splice assignment), so the session map is NOT left as it
    was. -/
theorem c7_old_session_mutated :
    (SignalServer.handleJoinSession sessionsAB "B".data clientOne).threw = true ∧
    (SignalServer.handleJoinSession sessionsAB "B".data clientOne).acts = [] ∧
    JsMap.get? (SignalServer.handleJoinSession sessionsAB "B".data clientOne).sessions
        "A".data ≠ JsMap.get? sessionsAB "A".data := by
  decide

theorem verifyObjBranch (s : JsValue) (hsn : s ≠ JsValue.jnull)
    (entries : List (JStr × JsValue)) :
    (match CoopClient.verifyLoop (some s) entries (typeObjectS == jsTypeof s) 0 with
      | Sum.inl (r, matching) =>
          if r && entries.length == matching then VerifyRes.ok else VerifyRes.reject
      | Sum.inr u => VerifyRes.typeError) = VerifyRes.ok ↔
      ((typeObjectS == jsTypeof s) = true ∧ entries.all (entryMatches s) = true) := by
  cases hb : (typeObjectS == jsTypeof s) with
  | false =>
      rw [verifyLoop_false]
      simp
  | true =>
      cases hall : entries.all (entryMatches s) with
      | true =>
          rw [verifyLoop_all s hsn entries 0 hall]
          simp
      | false =>
          obtain ⟨m2, hm2⟩ := verifyLoop_not_all s hsn entries 0 hall
          rw [hm2]
          simp

/-- C2 (amended): for a registered name with a non-null sample and a
    non-null object-typed payload, `verifyMessage` accepts IF AND ONLY IF
    the `typeof`s agree and every entry of the payload finds its key among
    the sample's entries with an identical `typeof` — a key-SUBSET check
    (`entries.length === matching` counts only the incoming entries), not
    the exact key-set equality the spec describes. -/
theorem c2_verify_accepts_key_subset (proto : List (JStr × JsValue)) (name : JStr)
    (v s : JsValue) (hget : JsMap.get? proto name = some s)
    (hv : jsTypeof v = typeObjectS) (hvn : v ≠ JsValue.jnull)
    (hsn : s ≠ JsValue.jnull) :
    CoopClient.verifyMessage proto name v = VerifyRes.ok ↔
      ((jsTypeof v == jsTypeof s) = true ∧
        (jsEntries v).all (entryMatches s) = true) := by
  have hhas : JsMap.hasKey proto name = true := JsMap.hasKey_of_get?_eq_some hget
  unfold CoopClient.verifyMessage
  rw [hget, hhas]
  simp only [Bool.true_and]
  cases v
  case jnum => exact absurd hv ((by decide : typeNumberS ≠ typeObjectS))
  case jstr => exact absurd hv ((by decide : typeStringS ≠ typeObjectS))
  case jbool => exact absurd hv ((by decide : typeBooleanS ≠ typeObjectS))
  case jnull => exact absurd rfl hvn
  case jarr es =>
      rw [show jsTypeof (JsValue.jarr es) = typeObjectS from rfl]
      simp only [beq_self_eq_true, if_true]
      exact verifyObjBranch s hsn (jsEntries (JsValue.jarr es))
  case jobj fs =>
      rw [show jsTypeof (JsValue.jobj fs) = typeObjectS from rfl]
      simp only [beq_self_eq_true, if_true]
      exact verifyObjBranch s hsn (jsEntries (JsValue.jobj fs))

/-- C2 at the concrete sample `{a:0, b:""}` and payload `{a:1}`. -/
theorem c2_subset_witness :
    CoopClient.verifyMessage protoSample "m".data payloadMissingKey = VerifyRes.ok ↔
      ((jsTypeof payloadMissingKey == jsTypeof sampleShape) = true ∧
        (jsEntries payloadMissingKey).all (entryMatches sampleShape) = true) :=
  c2_verify_accepts_key_subset protoSample "m".data payloadMissingKey sampleShape rfl rfl
    (fun h => JsValue.noConfusion h) (fun h => JsValue.noConfusion h)

/-- C2's exact-key-set reading is false of the code: the payload `{a:1}` is
    MISSING the sample `{a:0, b:""}`'s key `"b"`, fails the spec's
    exact-key-set predicate, yet `verifyMessage` accepts it; the empty
    array payload `[]` is likewise accepted against that non-array object
    sample, though the claim says arrays are rejected. -/
theorem c2_missing_key_accepted :
    CoopClient.verifyMessage protoSample "m".data payloadMissingKey = VerifyRes.ok ∧
    specShapeMatches sampleShape payloadMissingKey = false ∧
    CoopClient.verifyMessage protoSample "m".data (JsValue.jarr []) = VerifyRes.ok := by
  decide

theorem verifyAll_ok (c : CoopClient) :
    ∀ l : List (JStr × JsValue),
      (∀ p ∈ l, CoopClient.verifyMessage c.protocol p.1 p.2 = VerifyRes.ok) →
      CoopClient.verifyAll c l = Sum.inl c := by
  intro l
  induction l with
  | nil => intro _; rfl
  | cons p rest ih =>
      intro h
      obtain ⟨k, v⟩ := p
      rw [CoopClient.verifyAll.eq_def]
      show (match CoopClient.verifyMessage c.protocol k v with
        | VerifyRes.ok => CoopClient.verifyAll c rest
        | VerifyRes.reject => Sum.inr {c with closed := true}
        | VerifyRes.typeError => Sum.inr c) = Sum.inl c
      rw [h (k, v) (List.mem_cons_self (k, v) rest)]
      exact ih (fun x hx => h x (List.mem_cons_of_mem (k, v) hx))

/-- C1 (amended): a send whose payload verifies while either finished flag
    is down stores the message in the name-keyed queue map (overwriting any
    queued message of the same name) and reports queued, transmitting
    nothing; and when the remote `ProtocolFinish` arrives at a locally
    finished client whose registries cross-verify, the queue's entries are
    each transmitted exactly once, in map insertion order, and the queue is
    cleared. -/
theorem c1_send_queues_and_flush_on_finish (c : CoopClient) (name : JStr)
    (obj : JsValue) (pr op qm : List (JStr × JsValue)) (cb : List JStr) (cl : Bool)
    (hok : CoopClient.verifyMessage c.protocol name obj = VerifyRes.ok)
    (hflag : c.protocolFinished = false ∨ c.otherProtocolFinished = false)
    (hver : ∀ p ∈ op, CoopClient.verifyMessage pr p.1 p.2 = VerifyRes.ok)
    (hq : ∀ p ∈ qm, CoopClient.verifyMessage pr p.1 p.2 = VerifyRes.ok) :
    CoopClient.sendMessage c name obj =
      ⟨{c with queuedMessages := JsMap.set c.queuedMessages name obj}, [], some true⟩ ∧
    CoopClient.onMessage ⟨pr, cb, true, op, false, qm, cl⟩ protocolFinishS =
      ⟨⟨pr, cb, true, op, true, [], cl⟩,
        qm.map (fun p => CoopClient.frameOf p.1 p.2), []⟩ := by
  constructor
  · unfold CoopClient.sendMessage
    rw [hok]
    rcases hflag with h | h <;> simp [h]
  · have hsplitPF : splitSp protocolFinishS = [protocolFinishS] := by decide
    simp only [CoopClient.onMessage, hsplitPF]
    rw [show (protocolFinishS == protocolAddS) = false from by decide]
    simp only [Bool.false_eq_true, if_false]
    rw [show (protocolFinishS == protocolFinishS) = true from by decide]
    simp only [if_true]
    rw [verifyAll_ok (⟨pr, cb, true, op, true, qm, cl⟩ : CoopClient) op hver]
    show (match CoopClient.flushQueued (⟨pr, cb, true, op, true, qm, cl⟩ : CoopClient) qm with
      | Sum.inr (c3, out) => (⟨{c3 with closed := true}, out, []⟩ : CoopClient.RecvOut)
      | Sum.inl (c3, out) => ⟨{c3 with queuedMessages := []}, out, []⟩) = _
    rw [flushQueued_ok (⟨pr, cb, true, op, true, qm, cl⟩ : CoopClient) rfl rfl qm hq]

/-- C1 at a concrete queueing client and a concrete flush. -/
theorem c1_queue_flush_witness :
    CoopClient.sendMessage clientQueueing "m".data (JsValue.jnum 1) =
      ⟨{clientQueueing with queuedMessages := JsMap.set clientQueueing.queuedMessages "m".data (JsValue.jnum 1)},
        [], some true⟩ ∧
    CoopClient.onMessage
        ⟨[("m".data, JsValue.jnum 0)], ["m".data], true, [("m".data, JsValue.jnum 0)],
          false, [("m".data, JsValue.jnum 7)], false⟩ protocolFinishS =
      ⟨⟨[("m".data, JsValue.jnum 0)], ["m".data], true, [("m".data, JsValue.jnum 0)],
          true, [], false⟩,
        [(("m".data : JStr), JsValue.jnum 7)].map
          (fun p => CoopClient.frameOf p.1 p.2), []⟩ :=
  c1_send_queues_and_flush_on_finish clientQueueing "m".data (JsValue.jnum 1)
    [("m".data, JsValue.jnum 0)] [("m".data, JsValue.jnum 0)]
    [("m".data, JsValue.jnum 7)] ["m".data] false
    (by decide) (Or.inl rfl) (by decide) (by decide)

/-- C1's "no queued message is ever dropped" is false: on `clientDup`
    (locally finished, remote not), sending `"m" 1` queues it (the call
    reports queued and transmits nothing), but a second send `"m" 2`
    overwrites the same map key; the eventual flush transmits only the
    `"m" 2` frame and clears the queue, so the queued `"m" 1` message is
    dropped without ever being transmitted. -/
theorem c1_same_name_overwrite :
    (CoopClient.sendMessage clientDup "m".data (JsValue.jnum 1)).ret = some true ∧
    (CoopClient.sendMessage clientDup "m".data (JsValue.jnum 1)).sent = [] ∧
    (CoopClient.sendMessage (CoopClient.sendMessage clientDup "m".data
        (JsValue.jnum 1)).client "m".data (JsValue.jnum 2)).client.queuedMessages =
      [("m".data, JsValue.jnum 2)] ∧
    (CoopClient.onMessage (CoopClient.sendMessage (CoopClient.sendMessage clientDup
        "m".data (JsValue.jnum 1)).client "m".data (JsValue.jnum 2)).client
        protocolFinishS).sent = [CoopClient.frameOf "m".data (JsValue.jnum 2)] ∧
    (CoopClient.onMessage (CoopClient.sendMessage (CoopClient.sendMessage clientDup
        "m".data (JsValue.jnum 1)).client "m".data (JsValue.jnum 2)).client
        protocolFinishS).client.queuedMessages = [] :=
  ⟨rfl, rfl, rfl, rfl, rfl⟩

/-- C10: for a space-free, non-reserved name whose payload verifies on both
    sides, the frame `sendMessage` writes once both flags are up
    (`"<name> <JSON>"`) is parsed back by the receiving `onMessage` into
    the same name and a JSON-equal payload and dispatched exactly once to
    that name's callback — for every payload, including ones whose JSON
    text contains spaces (the receiver re-joins the split frame). -/
theorem c10_frame_round_trip (sender recv : CoopClient) (name : JStr)
    (obj : JsValue) (hsp : ' ' ∉ name)
    (hna : (name == protocolAddS) = false)
    (hnf : (name == protocolFinishS) = false)
    (hokS : CoopClient.verifyMessage sender.protocol name obj = VerifyRes.ok)
    (hfl : sender.protocolFinished = true)
    (hfr : sender.otherProtocolFinished = true)
    (hokR : CoopClient.verifyMessage recv.protocol name obj = VerifyRes.ok)
    (hcb : recv.callbacks.contains name = true) :
    CoopClient.sendMessage sender name obj =
      ⟨sender, [CoopClient.frameOf name obj], some false⟩ ∧
    CoopClient.onMessage recv (CoopClient.frameOf name obj) =
      ⟨recv, [], [(name, obj)]⟩ := by
  constructor
  · unfold CoopClient.sendMessage
    rw [hokS]
    simp [hfl, hfr]
  · have hsplit : splitSp (CoopClient.frameOf name obj) =
        name :: splitSp (stringify obj) := splitSp_frame hsp (stringify obj)
    simp only [CoopClient.onMessage, hsplit]
    rw [hna, hnf]
    simp only [Bool.false_eq_true, if_false]
    rw [joinSp_splitSp, jsonParse_stringify]
    show (match CoopClient.verifyMessage recv.protocol name obj with
      | VerifyRes.reject => (⟨{recv with closed := true}, [], []⟩ : CoopClient.RecvOut)
      | VerifyRes.typeError => ⟨{recv with closed := true}, [], []⟩
      | VerifyRes.ok =>
          if recv.callbacks.contains name then ⟨recv, [], [(name, obj)]⟩
          else ⟨{recv with closed := true}, [], []⟩) = ⟨recv, [], [(name, obj)]⟩
    rw [hokR]
    show (if recv.callbacks.contains name then (⟨recv, [], [(name, obj)]⟩ : CoopClient.RecvOut)
      else ⟨{recv with closed := true}, [], []⟩) = ⟨recv, [], [(name, obj)]⟩
    rw [hcb]
    rfl

/-- C10 at the concrete name `"m"` and payload `" x"` (whose JSON text
    contains a space). -/
theorem c10_round_trip_witness :
    CoopClient.sendMessage clientReady "m".data (JsValue.jstr [' ', 'x']) =
      ⟨clientReady, [CoopClient.frameOf "m".data (JsValue.jstr [' ', 'x'])],
        some false⟩ ∧
    CoopClient.onMessage clientReady
        (CoopClient.frameOf "m".data (JsValue.jstr [' ', 'x'])) =
      ⟨clientReady, [], [("m".data, JsValue.jstr [' ', 'x'])]⟩ :=
  c10_frame_round_trip clientReady clientReady "m".data (JsValue.jstr [' ', 'x'])
    (by decide) (by decide) (by decide) (by decide) rfl rfl (by decide) (by decide)
